import Mathlib

/-!
Verification development for the normpic photo-organization tool.

The Python source is shallowly embedded: pure functions become Lean
functions, filesystem access is modelled by an explicit record of
capabilities, and Python exceptions become `Except` results.  Machine
floats carrying POSIX mtimes are modelled by exact rationals; EXIF
timestamps are second-resolution calendar values as produced by
`datetime.strptime(s, "%Y:%m:%d %H:%M:%S")` in src/util/exif.py.

Python's stable `sorted` is modelled by a structurally recursive stable
insertion sort (`sortS`), and Python string comparison (code-point
lexicographic) by `strLe` on character lists, so that all definitions
evaluate inside the kernel.
-/

/-- Python string comparison: lexicographic order by code point. -/
def strLe : List Char → List Char → Bool
  | [], _ => true
  | _ :: _, [] => false
  | a :: as, b :: bs =>
    if a.toNat < b.toNat then true
    else if b.toNat < a.toNat then false
    else strLe as bs

theorem strLe_refl (s : List Char) : strLe s s = true := by
  induction s with
  | nil => rfl
  | cons a as ih => simp [strLe, ih]

theorem strLe_total (s t : List Char) : strLe s t = true ∨ strLe t s = true := by
  induction s generalizing t with
  | nil => left; rfl
  | cons a as ih =>
    cases t with
    | nil => right; rfl
    | cons b bs =>
      by_cases hab : a.toNat < b.toNat
      · left; simp [strLe, hab]
      · by_cases hba : b.toNat < a.toNat
        · right; simp [strLe, hba]
        · have h := ih bs
          simpa [strLe, hab, hba] using h

theorem strLe_trans {s t u : List Char} (h₁ : strLe s t = true) (h₂ : strLe t u = true) :
    strLe s u = true := by
  induction s generalizing t u with
  | nil => rfl
  | cons a as ih =>
    cases t with
    | nil => simp [strLe] at h₁
    | cons b bs =>
      cases u with
      | nil => simp [strLe] at h₂
      | cons c cs =>
        simp only [strLe] at h₁ h₂ ⊢
        by_cases hab : a.toNat < b.toNat
        · by_cases hbc : b.toNat < c.toNat
          · simp [Nat.lt_trans hab hbc]
          · by_cases hcb : c.toNat < b.toNat
            · simp [hbc, hcb] at h₂
            · have hac : a.toNat < c.toNat := by omega
              simp [hac]
        · by_cases hba : b.toNat < a.toNat
          · simp [hab, hba] at h₁
          · simp only [hab, hba, ite_false] at h₁
            by_cases hbc : b.toNat < c.toNat
            · have hac : a.toNat < c.toNat := by omega
              simp [hac]
            · by_cases hcb : c.toNat < b.toNat
              · simp [hbc, hcb] at h₂
              · have hac : ¬ a.toNat < c.toNat := by omega
                have hca : ¬ c.toNat < a.toNat := by omega
                simp only [hbc, hcb, ite_false] at h₂
                simp [hac, hca, ih h₁ h₂]

theorem strLe_antisymm {s t : List Char} (h₁ : strLe s t = true) (h₂ : strLe t s = true) :
    s = t := by
  induction s generalizing t with
  | nil =>
    cases t with
    | nil => rfl
    | cons b bs => simp [strLe] at h₂
  | cons a as ih =>
    cases t with
    | nil => simp [strLe] at h₁
    | cons b bs =>
      simp only [strLe] at h₁ h₂
      by_cases hab : a.toNat < b.toNat
      · have hba : ¬ b.toNat < a.toNat := by omega
        simp [hab, hba] at h₂
      · by_cases hba : b.toNat < a.toNat
        · simp [hab, hba] at h₁
        · have hv : a.toNat = b.toNat := by omega
          have hchar : a = b := Char.ext (UInt32.ext hv)
          simp only [hab, hba, ite_false] at h₁ h₂
          rw [hchar, ih h₁ h₂]

/-- Stable insertion: place `a` before the first element not strictly below it.
Folded over the input this reproduces the output of Python's stable `sorted`. -/
def insertS (le : α → α → Bool) (a : α) : List α → List α
  | [] => [a]
  | b :: bs => if le b a && !le a b then b :: insertS le a bs else a :: b :: bs

/-- Stable sort modelling Python's `sorted` for a total preorder `le`. -/
def sortS (le : α → α → Bool) : List α → List α
  | [] => []
  | x :: xs => insertS le x (sortS le xs)

theorem insertS_perm (le : α → α → Bool) (a : α) (l : List α) :
    (insertS le a l).Perm (a :: l) := by
  induction l with
  | nil => exact List.Perm.refl _
  | cons b bs ih =>
    by_cases h : (le b a && !le a b) = true
    · simp only [insertS, h, if_true]
      exact (List.Perm.cons b ih).trans (List.Perm.swap a b bs)
    · simp [insertS, h]

theorem sortS_perm (le : α → α → Bool) (l : List α) : (sortS le l).Perm l := by
  induction l with
  | nil => exact List.Perm.refl _
  | cons x xs ih =>
    exact (insertS_perm le x (sortS le xs)).trans (List.Perm.cons x ih)

theorem insertS_pairwise (le : α → α → Bool)
    (htot : ∀ a b, le a b = true ∨ le b a = true)
    (htrans : ∀ a b c, le a b = true → le b c = true → le a c = true)
    (a : α) (l : List α)
    (hl : l.Pairwise (fun x y => le x y = true)) :
    (insertS le a l).Pairwise (fun x y => le x y = true) := by
  induction l with
  | nil => simp [insertS]
  | cons b bs ih =>
    rcases List.pairwise_cons.mp hl with ⟨hb, hbs⟩
    by_cases h : (le b a && !le a b) = true
    · simp only [insertS, h, if_true]
      refine List.pairwise_cons.mpr ⟨?_, ih hbs⟩
      intro y hy
      rcases List.mem_cons.mp ((insertS_perm le a bs).mem_iff.mp hy) with hy2 | hy2
      · subst hy2
        exact ((Bool.and_eq_true _ _).mp h).1
      · exact hb y hy2
    · simp only [insertS, h, if_false]
      have hab : le a b = true := by
        rw [Bool.and_eq_true, Bool.not_eq_true'] at h
        rcases htot a b with h1 | h1
        · exact h1
        · rcases htot b a with h2 | h2
          · exact by_contra fun hc => h ⟨h2, Bool.not_eq_true _ ▸ Bool.eq_false_iff.mpr hc⟩
          · exact h2
      refine List.pairwise_cons.mpr ⟨?_, hl⟩
      intro y hy
      rcases List.mem_cons.mp hy with hy2 | hy2
      · exact hy2 ▸ hab
      · exact htrans a b y hab (hb y hy2)

theorem sortS_pairwise (le : α → α → Bool)
    (htot : ∀ a b, le a b = true ∨ le b a = true)
    (htrans : ∀ a b c, le a b = true → le b c = true → le a c = true)
    (l : List α) : (sortS le l).Pairwise (fun x y => le x y = true) := by
  induction l with
  | nil => simp [sortS]
  | cons x xs ih => exact insertS_pairwise le htot htrans x (sortS le xs) ih

/-!
## Data model

`DateTime` is a second-resolution calendar timestamp (the resolution the
spec's data model assigns to metadata timestamps, and the resolution
`datetime.strptime(s, "%Y:%m:%d %H:%M:%S")` produces).  `epochSec`
models Python's `datetime.timestamp()` via the standard civil-calendar
day count; the ordering code only relies on it through equalities and
sums, never on its calendar correctness.
-/

structure DateTime where
  year : ℕ
  month : ℕ
  day : ℕ
  hour : ℕ
  minute : ℕ
  second : ℕ
  deriving DecidableEq, Repr

/-- Days since 1970-01-01 of a civil date (Hinnant's `days_from_civil`). -/
def daysFromCivil (y m d : ℤ) : ℤ :=
  let y2 : ℤ := if m ≤ 2 then y - 1 else y
  let era : ℤ := Int.fdiv y2 400
  let yoe : ℤ := y2 - era * 400
  let mp : ℤ := if 2 < m then m - 3 else m + 9
  let doy : ℤ := (153 * mp + 2) / 5 + d - 1
  let doe : ℤ := yoe * 365 + yoe / 4 - yoe / 100 + doy
  era * 146097 + doe - 719468

/-- Models `datetime.timestamp()` (seconds since the epoch). -/
def epochSec (t : DateTime) : ℤ :=
  daysFromCivil t.year t.month t.day * 86400 + t.hour * 3600 + t.minute * 60 + t.second

/-- src/model/exif.py `CameraInfo`. -/
structure CameraInfo where
  make : Option String := none
  model : Option String := none
  deriving DecidableEq, Repr

/-- src/model/exif.py `ExifData` (the fields the ordering and naming code read). -/
structure ExifData where
  timestamp : Option DateTime := none
  subsecond : Option ℕ := none
  gps_latitude : Option ℚ := none
  gps_longitude : Option ℚ := none
  deriving DecidableEq, Repr

/-- One `(photo_path, exif_data, camera_info)` tuple of `pics_data`. -/
structure Entry where
  path : String
  exif : ExifData
  camera : CameraInfo
  deriving DecidableEq, Repr

/-- `photo_path.name`: the final path component, as a character list. -/
def pathName (p : String) : List Char :=
  (p.toList.reverse.takeWhile (fun c => c ≠ '/')).reverse

/-- Python truthiness of `exif_data.subsecond`: `None` and `0` are falsy.
Millisecond offset added to the sort key (`subsecond / 1000.0` seconds,
scaled here to exact integer milliseconds). -/
def subMs (x : ExifData) : ℤ :=
  match x.subsecond with
  | some s => if s = 0 then 0 else (s : ℤ)
  | none => 0

/-- `timestamp_microsec` of `_order_photos_temporally`/`camera_earliest_sort_key`,
scaled to integer milliseconds: `timestamp() + subsecond/1000` when subsecond
is truthy. Entries without timestamp never reach this value in the code. -/
def full_ts_ms (e : Entry) : ℤ :=
  match e.exif.timestamp with
  | some t => epochSec t * 1000 + subMs e.exif
  | none => 0

/-- `subsec_priority` of `_order_photos_temporally`. -/
def subPrio (x : ExifData) : ℕ :=
  match x.subsecond with
  | some s => if s = 0 then 1 else 0
  | none => 1


/-!
## Lexicographic key comparison

`prodLE lt le` compares a pair lexicographically: strict comparison on the
first component, falling through to `le` on ties.  Python's tuple `<=` is
the iterated form of this combinator.
-/

def prodLE (lt : α → α → Bool) (le : β → β → Bool) (x y : α × β) : Bool :=
  bif lt x.1 y.1 then true else bif lt y.1 x.1 then false else le x.2 y.2

theorem lt_irrefl_of_asym {lt : α → α → Bool}
    (hasym : ∀ a b, lt a b = true → lt b a = false) (a : α) : lt a a = false := by
  by_cases h : lt a a = true
  · exact absurd (hasym a a h) (by simp [h])
  · simpa using h

theorem prodLE_true_iff {lt : α → α → Bool} {le : β → β → Bool}
    (htrich : ∀ a b, lt a b = true ∨ lt b a = true ∨ a = b)
    (hasym : ∀ a b, lt a b = true → lt b a = false)
    {x y : α × β} :
    prodLE lt le x y = true ↔ lt x.1 y.1 = true ∨ (x.1 = y.1 ∧ le x.2 y.2 = true) := by
  unfold prodLE
  rcases htrich x.1 y.1 with h | h | h
  · simp [h]
  · have h1 : lt x.1 y.1 = false := hasym _ _ h
    rw [h1, h]
    simp only [cond_false, cond_true]
    constructor
    · intro hc; exact absurd hc (by simp)
    · rintro (hc | ⟨he, _⟩)
      · exact absurd hc (by simp [h1])
      · rw [he] at h
        exact absurd h (by simp [lt_irrefl_of_asym hasym])
  · have h1 : lt x.1 y.1 = false := h ▸ lt_irrefl_of_asym hasym x.1
    have h2 : lt y.1 x.1 = false := h ▸ lt_irrefl_of_asym hasym x.1
    rw [h1, h2]
    simp [h]

theorem prodLE_total {lt : α → α → Bool} {le : β → β → Bool}
    (htrich : ∀ a b, lt a b = true ∨ lt b a = true ∨ a = b)
    (hasym : ∀ a b, lt a b = true → lt b a = false)
    (hle_tot : ∀ a b, le a b = true ∨ le b a = true)
    (x y : α × β) : prodLE lt le x y = true ∨ prodLE lt le y x = true := by
  rcases htrich x.1 y.1 with h | h | h
  · left; exact (prodLE_true_iff htrich hasym).mpr (Or.inl h)
  · right; exact (prodLE_true_iff htrich hasym).mpr (Or.inl h)
  · rcases hle_tot x.2 y.2 with h2 | h2
    · left; exact (prodLE_true_iff htrich hasym).mpr (Or.inr ⟨h, h2⟩)
    · right; exact (prodLE_true_iff htrich hasym).mpr (Or.inr ⟨h.symm, h2⟩)

theorem prodLE_trans {lt : α → α → Bool} {le : β → β → Bool}
    (htrich : ∀ a b, lt a b = true ∨ lt b a = true ∨ a = b)
    (hasym : ∀ a b, lt a b = true → lt b a = false)
    (hlt_trans : ∀ a b c, lt a b = true → lt b c = true → lt a c = true)
    (hle_trans : ∀ a b c, le a b = true → le b c = true → le a c = true)
    {x y z : α × β} (h₁ : prodLE lt le x y = true) (h₂ : prodLE lt le y z = true) :
    prodLE lt le x z = true := by
  rcases (prodLE_true_iff htrich hasym).mp h₁ with ha | ⟨hea, hba⟩ <;>
    rcases (prodLE_true_iff htrich hasym).mp h₂ with hb | ⟨heb, hbb⟩
  · exact (prodLE_true_iff htrich hasym).mpr (Or.inl (hlt_trans _ _ _ ha hb))
  · exact (prodLE_true_iff htrich hasym).mpr (Or.inl (heb ▸ ha))
  · exact (prodLE_true_iff htrich hasym).mpr (Or.inl (hea ▸ hb))
  · exact (prodLE_true_iff htrich hasym).mpr (Or.inr ⟨hea.trans heb, hle_trans _ _ _ hba hbb⟩)

theorem prodLE_antisymm {lt : α → α → Bool} {le : β → β → Bool}
    (htrich : ∀ a b, lt a b = true ∨ lt b a = true ∨ a = b)
    (hasym : ∀ a b, lt a b = true → lt b a = false)
    (hle_antisymm : ∀ a b, le a b = true → le b a = true → a = b)
    {x y : α × β} (h₁ : prodLE lt le x y = true) (h₂ : prodLE lt le y x = true) :
    x = y := by
  rcases (prodLE_true_iff htrich hasym).mp h₁ with ha | ⟨hea, hba⟩ <;>
    rcases (prodLE_true_iff htrich hasym).mp h₂ with hb | ⟨heb, hbb⟩
  · exact absurd hb (by simp [hasym _ _ ha])
  · exact absurd (heb ▸ ha) (by simp [lt_irrefl_of_asym hasym])
  · exact absurd (hea ▸ hb) (by simp [lt_irrefl_of_asym hasym])
  · exact Prod.ext hea (hle_antisymm _ _ hba hbb)

def natLT (a b : ℕ) : Bool := decide (a < b)

def intLT (a b : ℤ) : Bool := decide (a < b)

theorem natLT_trich (a b : ℕ) : natLT a b = true ∨ natLT b a = true ∨ a = b := by
  unfold natLT; rcases Nat.lt_trichotomy a b with h | h | h <;> simp [h]

theorem natLT_asym (a b : ℕ) (h : natLT a b = true) : natLT b a = false := by
  unfold natLT at h ⊢; simp at h ⊢; omega

theorem natLT_trans (a b c : ℕ) (h₁ : natLT a b = true) (h₂ : natLT b c = true) :
    natLT a c = true := by
  unfold natLT at h₁ h₂ ⊢; simp at h₁ h₂ ⊢; omega

theorem intLT_trich (a b : ℤ) : intLT a b = true ∨ intLT b a = true ∨ a = b := by
  unfold intLT; rcases Int.lt_trichotomy a b with h | h | h <;> simp [h]

theorem intLT_asym (a b : ℤ) (h : intLT a b = true) : intLT b a = false := by
  unfold intLT at h ⊢; simp at h ⊢; omega

theorem intLT_trans (a b c : ℤ) (h₁ : intLT a b = true) (h₂ : intLT b c = true) :
    intLT a c = true := by
  unfold intLT at h₁ h₂ ⊢; simp at h₁ h₂ ⊢; omega

/-- Comparison of the `(subsec_priority, name)` key suffix. -/
def lvl3LE : ℕ × List Char → ℕ × List Char → Bool := prodLE natLT strLe

theorem lvl3LE_total (a b : ℕ × List Char) : lvl3LE a b = true ∨ lvl3LE b a = true :=
  prodLE_total natLT_trich natLT_asym strLe_total a b

theorem strLe_trans3 (a b c : List Char) (h₁ : strLe a b = true)
    (h₂ : strLe b c = true) : strLe a c = true := strLe_trans h₁ h₂

theorem strLe_antisymm2 (a b : List Char) (h₁ : strLe a b = true)
    (h₂ : strLe b a = true) : a = b := strLe_antisymm h₁ h₂

theorem lvl3LE_trans (a b c : ℕ × List Char) (h₁ : lvl3LE a b = true)
    (h₂ : lvl3LE b c = true) : lvl3LE a c = true := by
  unfold lvl3LE at h₁ h₂ ⊢
  exact prodLE_trans natLT_trich natLT_asym natLT_trans strLe_trans3 h₁ h₂

theorem lvl3LE_antisymm (a b : ℕ × List Char) (h₁ : lvl3LE a b = true)
    (h₂ : lvl3LE b a = true) : a = b := by
  unfold lvl3LE at h₁ h₂
  exact prodLE_antisymm natLT_trich natLT_asym strLe_antisymm2 h₁ h₂

/-- Comparison of the `(timestamp_microsec, subsec_priority, name)` key suffix. -/
def lvl2LE : ℤ × ℕ × List Char → ℤ × ℕ × List Char → Bool := prodLE intLT lvl3LE

theorem lvl2LE_total (a b : ℤ × ℕ × List Char) : lvl2LE a b = true ∨ lvl2LE b a = true :=
  prodLE_total intLT_trich intLT_asym lvl3LE_total a b

theorem lvl2LE_trans (a b c : ℤ × ℕ × List Char) (h₁ : lvl2LE a b = true)
    (h₂ : lvl2LE b c = true) : lvl2LE a c = true :=
  prodLE_trans intLT_trich intLT_asym intLT_trans lvl3LE_trans h₁ h₂

theorem lvl2LE_antisymm (a b : ℤ × ℕ × List Char) (h₁ : lvl2LE a b = true)
    (h₂ : lvl2LE b a = true) : a = b :=
  prodLE_antisymm intLT_trich intLT_asym lvl3LE_antisymm h₁ h₂

/-- The Python sort key tuple `(group, timestamp_microsec, subsec_priority, name)`. -/
def Key : Type := ℕ × ℤ × ℕ × List Char

/-- `sort_key` of `_order_photos_temporally` (src/manager/photo_manager.py). -/
def sort_key (e : Entry) : Key :=
  match e.exif.timestamp with
  | some _ => (0, full_ts_ms e, subPrio e.exif, pathName e.path)
  | none => (1, 0, 0, pathName e.path)

instance : DecidableEq Key :=
  inferInstanceAs (DecidableEq (ℕ × ℤ × ℕ × List Char))

/-- Python tuple `<=` on sort keys (lexicographic). -/
def keyLE : Key → Key → Bool := prodLE natLT lvl2LE

theorem keyLE_total (a b : Key) : keyLE a b = true ∨ keyLE b a = true :=
  prodLE_total natLT_trich natLT_asym lvl2LE_total _ _

theorem keyLE_trans {a b c : Key} (h₁ : keyLE a b = true) (h₂ : keyLE b c = true) :
    keyLE a c = true :=
  prodLE_trans natLT_trich natLT_asym natLT_trans lvl2LE_trans h₁ h₂

theorem keyLE_antisymm {a b : Key} (h₁ : keyLE a b = true) (h₂ : keyLE b a = true) :
    a = b :=
  prodLE_antisymm natLT_trich natLT_asym lvl2LE_antisymm h₁ h₂

/-- Entry comparison by Python sort key. -/
def entLE (a b : Entry) : Bool := keyLE (sort_key a) (sort_key b)

theorem entLE_total (a b : Entry) : entLE a b = true ∨ entLE b a = true :=
  keyLE_total _ _

theorem entLE_trans (a b c : Entry) (h₁ : entLE a b = true) (h₂ : entLE b c = true) :
    entLE a c = true := keyLE_trans h₁ h₂

/-- `_order_photos_temporally` (src/manager/photo_manager.py, lines 200-218):
`sorted(pics_data, key=sort_key)`. -/
def _order_photos_temporally (pics_data : List Entry) : List Entry :=
  sortS entLE pics_data

/-!
## Burst preservation

`_order_photos_with_burst_preservation` (src/manager/photo_manager.py,
lines 125-197): after the temporal sort, the while-loop gathers maximal
consecutive groups sharing the same whole-second timestamp (EXIF
timestamps are second-resolution, so `timestamp.replace(microsecond=0)`
equality is plain `DateTime` equality) and regroups multi-camera groups.
`runsOf` names the run decomposition the loop traverses; `burstLoop` is
the loop itself.
-/

theorem length_dropWhile_le (p : α → Bool) (l : List α) :
    (l.dropWhile p).length ≤ l.length := by
  induction l with
  | nil => simp
  | cons x xs ih =>
    rw [List.dropWhile_cons]
    split
    · exact Nat.le_succ_of_le ih
    · exact Nat.le_refl _

/-- Camera identity `f"{make or 'unknown'}-{model or 'unknown'}"`
(Python truthiness: `None` and `""` fall back to `"unknown"`). -/
def orUnknown : Option String → String
  | none => "unknown"
  | some s => if s = "" then "unknown" else s

def camKey (ci : CameraInfo) : String := orUnknown ci.make ++ "-" ++ orUnknown ci.model

def camKeyOf (e : Entry) : String := camKey e.camera

/-- `next_exif_data.timestamp and next_exif_data.timestamp.replace(microsecond=0) == main_timestamp`. -/
def tsEq (t : DateTime) (x : Entry) : Bool :=
  match x.exif.timestamp with
  | some u => decide (u = t)
  | none => false

/-- The maximal consecutive same-whole-second runs the while-loop walks
(structural recursion on a fuel bound so the definition reduces in the
kernel; `runsOf` instantiates the fuel with the list length, which the
recursion never exhausts). -/
def runsOfF : ℕ → List Entry → List (List Entry)
  | _, [] => []
  | 0, l => [l]
  | fuel + 1, e :: rest =>
    match e.exif.timestamp with
    | none => [e] :: runsOfF fuel rest
    | some t => (e :: rest.takeWhile (tsEq t)) :: runsOfF fuel (rest.dropWhile (tsEq t))

def runsOf (l : List Entry) : List (List Entry) := runsOfF l.length l

theorem runsOfF_congr :
    ∀ fuel₁ fuel₂ (l : List Entry), l.length ≤ fuel₁ → l.length ≤ fuel₂ →
      runsOfF fuel₁ l = runsOfF fuel₂ l := by
  intro fuel₁
  induction fuel₁ with
  | zero =>
    intro fuel₂ l h₁ _
    cases l with
    | nil => cases fuel₂ <;> rfl
    | cons e rest => simp at h₁
  | succ f ih =>
    intro fuel₂ l h₁ h₂
    cases l with
    | nil => cases fuel₂ <;> rfl
    | cons e rest =>
      cases fuel₂ with
      | zero => simp at h₂
      | succ g =>
        cases ht : e.exif.timestamp with
        | none =>
          simp only [runsOfF, ht]
          rw [ih g rest (by simpa using h₁) (by simpa using h₂)]
        | some t =>
          simp only [runsOfF, ht]
          rw [ih g (rest.dropWhile (tsEq t))
            (le_trans (length_dropWhile_le _ _) (by simpa using h₁))
            (le_trans (length_dropWhile_le _ _) (by simpa using h₂))]

/-- First-occurrence deduplication: the key insertion order of a Python
dict built by appending (`defaultdict` in `_order_photos_with_burst_preservation`). -/
def firstOccsAux (seen : List String) : List String → List String
  | [] => []
  | x :: xs => if x ∈ seen then firstOccsAux seen xs else x :: firstOccsAux (x :: seen) xs

def firstOccs (l : List String) : List String := firstOccsAux [] l

/-- `camera_earliest_sort_key`: full timestamp of the group's first photo. -/
def earliest_ms : List Entry → ℤ
  | [] => 0
  | e :: _ => full_ts_ms e

/-- Comparison used by `sorted(camera_groups.items(), key=camera_earliest_sort_key)`. -/
def groupLE (A B : String × List Entry) : Bool :=
  decide (earliest_ms A.2 ≤ earliest_ms B.2)

/-- The multi-camera branch: group by camera key (dict insertion order =
first occurrence; each group keeps its internal order), then emit groups
sorted by their earliest photo's full timestamp. -/
def regroup (g : List Entry) : List Entry :=
  let keys := firstOccs (g.map camKeyOf)
  let groups := keys.map (fun c => (c, g.filter (fun x => decide (camKeyOf x = c))))
  (sortS groupLE groups).flatMap Prod.snd

/-- Processing of one same-second run by the loop body. -/
def processRun (g : List Entry) : List Entry :=
  match g with
  | [] => []
  | e :: _ =>
    match e.exif.timestamp with
    | none => g
    | some _ =>
      if (firstOccs (g.map camKeyOf)).length ≤ 1 then g else regroup g

/-- The while-loop of `_order_photos_with_burst_preservation`, with the
same fuel discipline as `runsOfF`. -/
def burstLoopF : ℕ → List Entry → List Entry
  | _, [] => []
  | 0, l => l
  | fuel + 1, e :: rest =>
    match e.exif.timestamp with
    | none => e :: burstLoopF fuel rest
    | some t =>
      processRun (e :: rest.takeWhile (tsEq t)) ++ burstLoopF fuel (rest.dropWhile (tsEq t))

def burstLoop (l : List Entry) : List Entry := burstLoopF l.length l

/-- `_order_photos_with_burst_preservation` (src/manager/photo_manager.py). -/
def _order_photos_with_burst_preservation (pics_data : List Entry) : List Entry :=
  burstLoop (_order_photos_temporally pics_data)

theorem burstLoopF_eq_flatMap :
    ∀ fuel (l : List Entry), l.length ≤ fuel →
      burstLoopF fuel l = (runsOfF fuel l).flatMap processRun := by
  intro fuel
  induction fuel with
  | zero =>
    intro l h
    cases l with
    | nil => rfl
    | cons e rest => simp at h
  | succ f ih =>
    intro l h
    cases l with
    | nil => rfl
    | cons e rest =>
      cases ht : e.exif.timestamp with
      | none =>
        simp only [burstLoopF, runsOfF, ht, List.flatMap_cons]
        rw [ih rest (by simpa using h)]
        simp [processRun, ht]
      | some t =>
        simp only [burstLoopF, runsOfF, ht, List.flatMap_cons]
        rw [ih (rest.dropWhile (tsEq t))
          (le_trans (length_dropWhile_le _ _) (by simpa using h))]

theorem burstLoop_eq_flatMap (l : List Entry) :
    burstLoop l = (runsOf l).flatMap processRun :=
  burstLoopF_eq_flatMap l.length l (le_refl _)

/-!
## Ordering lemmas
-/

theorem keyLE_refl (a : Key) : keyLE a a = true := by
  rcases keyLE_total a a with h | h <;> exact h

theorem entLE_refl (a : Entry) : entLE a a = true := keyLE_refl _

/-- `occursBefore l a b`: some occurrence of `a` appears strictly before
some occurrence of `b` in `l`. -/
def occursBefore [DecidableEq α] : List α → α → α → Bool
  | [], _, _ => false
  | x :: xs, a, b => (decide (x = a) && decide (b ∈ xs)) || occursBefore xs a b

theorem occursBefore_sorted [DecidableEq α] {le : α → α → Bool}
    (hrefl : ∀ a, le a a = true) {l : List α}
    (hl : l.Pairwise (fun x y => le x y = true)) {a b : α}
    (ha : a ∈ l) (hb : b ∈ l) (hba : le b a = false) :
    occursBefore l a b = true := by
  induction l with
  | nil => cases ha
  | cons x xs ih =>
    rcases List.pairwise_cons.mp hl with ⟨hx, hxs⟩
    by_cases hxa : x = a
    · rcases List.mem_cons.mp hb with hbx | hbxs
      · exfalso
        rw [hbx, hxa] at hba
        rw [hrefl a] at hba
        cases hba
      · simp [occursBefore, hxa, hbxs]
    · have ha2 : a ∈ xs := List.mem_cons.mp ha |>.resolve_left (fun h => hxa h.symm)
      rcases List.mem_cons.mp hb with hbx | hbxs
      · exfalso
        have hxa2 := hx a ha2
        rw [hbx] at hba
        rw [hxa2] at hba
        cases hba
      · simp [occursBefore, ih hxs ha2 hbxs]

/-- Two sorted permutations of each other with pairwise-distinct sort keys
are equal: with distinct keys the comparison is antisymmetric on the list. -/
theorem sorted_perm_eq_of_nodup_keys :
    ∀ {l₁ l₂ : List Entry}, l₁.Perm l₂ →
      l₁.Pairwise (fun x y => entLE x y = true) →
      l₂.Pairwise (fun x y => entLE x y = true) →
      (l₁.map sort_key).Nodup → l₁ = l₂ := by
  intro l₁
  induction l₁ with
  | nil => intro l₂ hp _ _ _; exact (hp.symm.eq_nil).symm
  | cons a t₁ ih =>
    intro l₂ hp h₁ h₂ hnd
    cases l₂ with
    | nil => exact absurd hp.eq_nil (by simp)
    | cons b t₂ =>
      by_cases hab : a = b
      · subst hab
        have htails := ih hp.cons_inv (List.pairwise_cons.mp h₁).2 (List.pairwise_cons.mp h₂).2
          (List.nodup_cons.mp (by simpa using hnd)).2
        rw [htails]
      · exfalso
        have haInL2 : a ∈ b :: t₂ := hp.mem_iff.mp (List.mem_cons_self a t₁)
        have ha2 : a ∈ t₂ := (List.mem_cons.mp haInL2).resolve_left hab
        have hbInL1 : b ∈ a :: t₁ := hp.symm.mem_iff.mp (List.mem_cons_self b t₂)
        have hb1 : b ∈ t₁ := (List.mem_cons.mp hbInL1).resolve_left (fun h => hab h.symm)
        have h_ab : entLE a b = true := (List.pairwise_cons.mp h₁).1 b hb1
        have h_ba : entLE b a = true := (List.pairwise_cons.mp h₂).1 a ha2
        have hkeq : sort_key a = sort_key b := keyLE_antisymm h_ab h_ba
        have : sort_key a ∉ t₁.map sort_key := (List.nodup_cons.mp (by simpa using hnd)).1
        exact this (hkeq ▸ List.mem_map_of_mem sort_key hb1)

theorem firstOccsAux_nodup (l : List String) :
    ∀ seen, (firstOccsAux seen l).Nodup ∧ ∀ y ∈ firstOccsAux seen l, y ∉ seen := by
  induction l with
  | nil => intro seen; simp [firstOccsAux]
  | cons x xs ih =>
    intro seen
    by_cases hx : x ∈ seen
    · simpa [firstOccsAux, hx] using ih seen
    · rcases ih (x :: seen) with ⟨hnd, hn⟩
      rw [show firstOccsAux seen (x :: xs) = x :: firstOccsAux (x :: seen) xs by
        simp [firstOccsAux, hx]]
      refine ⟨List.nodup_cons.mpr ⟨fun hc => hn x hc (List.mem_cons_self x seen), hnd⟩, ?_⟩
      intro y hy
      rcases List.mem_cons.mp hy with hyx | hyr
      · exact hyx ▸ hx
      · exact fun hc => hn y hyr (List.mem_cons_of_mem x hc)

theorem firstOccsAux_mem (l : List String) :
    ∀ seen y, y ∈ firstOccsAux seen l ↔ y ∈ l ∧ y ∉ seen := by
  induction l with
  | nil => intro seen y; simp [firstOccsAux]
  | cons x xs ih =>
    intro seen y
    by_cases hx : x ∈ seen
    · rw [show firstOccsAux seen (x :: xs) = firstOccsAux seen xs by simp [firstOccsAux, hx]]
      rw [ih seen y]
      constructor
      · rintro ⟨h1, h2⟩; exact ⟨List.mem_cons_of_mem x h1, h2⟩
      · rintro ⟨h1, h2⟩
        rcases List.mem_cons.mp h1 with rfl | h1
        · exact absurd hx h2
        · exact ⟨h1, h2⟩
    · rw [show firstOccsAux seen (x :: xs) = x :: firstOccsAux (x :: seen) xs by
        simp [firstOccsAux, hx]]
      constructor
      · intro hy
        rcases List.mem_cons.mp hy with rfl | hy
        · exact ⟨List.mem_cons_self _ _, hx⟩
        · rcases (ih (x :: seen) y).mp hy with ⟨h1, h2⟩
          exact ⟨List.mem_cons_of_mem x h1, fun hc => h2 (List.mem_cons_of_mem x hc)⟩
      · rintro ⟨h1, h2⟩
        rcases List.mem_cons.mp h1 with rfl | h1
        · exact List.mem_cons_self _ _
        · by_cases hyx : y = x
          · exact hyx ▸ List.mem_cons_self _ _
          · exact List.mem_cons_of_mem x ((ih (x :: seen) y).mpr
              ⟨h1, fun hc => (List.mem_cons.mp hc).elim hyx h2⟩)

theorem firstOccs_nodup (l : List String) : (firstOccs l).Nodup :=
  (firstOccsAux_nodup l []).1

theorem firstOccs_mem (l : List String) (y : String) : y ∈ firstOccs l ↔ y ∈ l := by
  simpa [firstOccs] using firstOccsAux_mem l [] y

/-!
## Filename generator (src/template/filename.py)
-/

/-- Base32 alphabet for the counter system (lexically ordered). -/
def BASE32_ALPHABET : String := "0123456789ABCDEFGHIJKLMNOPQRSTUV"

def pad2 (n : ℕ) : String := if n < 10 then "0" ++ toString n else toString n

def pad4 (n : ℕ) : String :=
  if n < 10 then "000" ++ toString n
  else if n < 100 then "00" ++ toString n
  else if n < 1000 then "0" ++ toString n
  else toString n

/-- `format_timestamp`: `dt.strftime("%Y%m%dT%H%M%S")`. -/
def format_timestamp (dt : DateTime) : String :=
  pad4 dt.year ++ pad2 dt.month ++ pad2 dt.day ++ "T" ++
    pad2 dt.hour ++ pad2 dt.minute ++ pad2 dt.second

def startsWithL : List Char → List Char → Bool
  | _, [] => true
  | [], _ :: _ => false
  | a :: as, b :: bs => decide (a = b) && startsWithL as bs

/-- `p in h` for strings: `p` occurs as a contiguous substring of `h`. -/
def containsSubL (p : List Char) : List Char → Bool
  | [] => startsWithL [] p
  | c :: t => startsWithL (c :: t) p || containsSubL p t

/-- Python `.strip()` (whitespace at both ends). -/
def trimChars (l : List Char) : List Char :=
  ((l.dropWhile Char.isWhitespace).reverse.dropWhile Char.isWhitespace).reverse

def truthyStr : Option String → Bool
  | none => false
  | some s => decide (s ≠ "")

def orEmpty : Option String → String
  | none => ""
  | some s => s

/-- The static `camera_mappings` table of `get_camera_code`, in source order. -/
def camera_mappings : List (String × String) :=
  [("canon eos r5", "r5a"), ("canon eos r6", "r6a"), ("canon eos 5d", "5da"),
   ("canon eos 6d", "6da"), ("nikon d850", "d85"), ("nikon d750", "d75"),
   ("sony a7r", "a7r"), ("sony a7 iii", "a73"), ("iphone 15", "i15"),
   ("iphone 14", "i14"), ("iphone 13", "i13"), ("iphone 12", "i12"),
   ("iphone", "iph")]

/-- `get_camera_code` (src/template/filename.py, lines 64-110). -/
def get_camera_code (camera_info : CameraInfo) : String :=
  if !truthyStr camera_info.make && !truthyStr camera_info.model then "unk"
  else
    let combined : List Char :=
      trimChars ((orEmpty camera_info.make ++ " " ++ orEmpty camera_info.model).toList)
    let combined_lower : List Char := combined.map Char.toLower
    match camera_mappings.find? (fun pc => containsSubL pc.1.toList combined_lower) with
    | some pc => pc.2
    | none =>
      let clean := combined_lower.filter Char.isAlphanum
      if 3 ≤ clean.length then String.mk (clean.take 3)
      else if 0 < clean.length then String.mk (clean ++ List.replicate (3 - clean.length) 'x')
      else "unk"

/-- `"-".join(parts)`. -/
def joinDash : List String → String
  | [] => ""
  | [x] => x
  | x :: xs => x ++ "-" ++ joinDash xs

/-- `f"{base_filename}-{counter_char}{file_extension}"`. -/
def counter_name (base ext : String) (c : ℕ) : String :=
  base ++ "-" ++ String.mk [BASE32_ALPHABET.toList.getD c '0'] ++ ext

/-- The `for counter in range(32)` loop of `find_available_counter`, as a
recursion on the number of counters still unexamined. -/
def counterScan (base ext : String) (existing : List String) : ℕ → ℕ → Except String ℕ
  | _, 0 => .error ("Too many files with same timestamp and camera: " ++ base)
  | c, n + 1 =>
    if counter_name base ext c ∈ existing then counterScan base ext existing (c + 1) n
    else .ok c

/-- `find_available_counter` (src/template/filename.py, lines 125-150). -/
def find_available_counter (base ext : String) (existing : List String) :
    Except String ℕ :=
  if existing = [] then .ok 0
  else counterScan base ext existing 0 32

/-- Base filename built from `parts` in `generate_filename` (collection
prefix when truthy, formatted timestamp with `datetime.now()` fallback,
camera code). -/
def base_of (now : DateTime) (camera_info : CameraInfo) (exif_data : ExifData)
    (collection : String) : String :=
  joinDash ((if collection ≠ "" then [collection] else []) ++
    [format_timestamp (exif_data.timestamp.getD now), get_camera_code camera_info])

/-- `generate_filename` (src/template/filename.py, lines 11-61).  The
`datetime.now()` fallback is the explicit `now` argument; the raised
`ValueError` on counter exhaustion is the `Except.error` branch. -/
def generate_filename (now : DateTime) (camera_info : CameraInfo) (exif_data : ExifData)
    (collection : String) (file_extension : String) (existing_filenames : List String) :
    Except String String :=
  let base_filename := base_of now camera_info exif_data collection
  let candidate := base_filename ++ file_extension
  if existing_filenames = [] ∨ candidate ∉ existing_filenames then .ok candidate
  else
    match find_available_counter base_filename file_extension existing_filenames with
    | .ok counter => .ok (counter_name base_filename file_extension counter)
    | .error e => .error e

/-!
## Manifest data and change detection (src/manager/manifest_manager.py,
src/model/pic.py, src/manager/photo_manager.py)

Filesystem access (existence, stat, content hashing) and the metadata
extractor are modelled as an explicit record of capabilities `SrcFS`;
`datetime.now()` is its `now` field.  JSON values are the inductive
`Json`, with numbers as exact rationals.
-/

deriving instance DecidableEq for Except

inductive Json where
  | null
  | bool (b : Bool)
  | num (q : ℚ)
  | str (s : String)
  | arr (xs : List Json)
  | obj (fields : List (String × Json))

/-- src/model/pic.py `Pic`. -/
structure Pic where
  source_path : String
  dest_path : String
  hash : String
  size_bytes : ℤ
  mtime : ℚ
  timestamp : Option DateTime := none
  timestamp_source : Option String := none
  camera : Option String := none
  gps : Json := Json.null
  errors : List Json := []

/-- Injected filesystem/extractor capabilities used by the pipeline. -/
structure SrcFS where
  exists_ : String → Bool
  mtime : String → ℚ
  size_bytes : String → ℤ
  sha_hash : String → String
  quick_hash : String → String
  exif : String → ExifData
  camera : String → CameraInfo
  now : DateTime

/-- `abs(current_mtime - previous_mtime) > 0.001`, computed by integer
cross-multiplication so that it evaluates inside the kernel;
`mtimeDeltaGtEps_iff` identifies it with the textbook form. -/
def mtimeDeltaGtEps (cur prev : ℚ) : Bool :=
  decide ((cur.den : ℤ) * prev.den < 1000 * (cur.num * prev.den - prev.num * cur.den)) ||
  decide ((cur.den : ℤ) * prev.den < 1000 * (prev.num * cur.den - cur.num * prev.den))

theorem mtimeDeltaGtEps_iff (cur prev : ℚ) :
    mtimeDeltaGtEps cur prev = true ↔ (1 : ℚ)/1000 < |cur - prev| := by
  have hcd : (0:ℤ) < (cur.den : ℤ) := by exact_mod_cast cur.pos
  have hpd : (0:ℤ) < (prev.den : ℤ) := by exact_mod_cast prev.pos
  have hD : (0:ℤ) < (cur.den : ℤ) * prev.den := mul_pos hcd hpd
  have key : ∀ M : ℤ,
      ((1:ℚ)/1000 < (M:ℚ)/(((cur.den : ℤ) * prev.den : ℤ) : ℚ)) ↔
        (cur.den : ℤ) * prev.den < 1000 * M := by
    intro M
    rw [div_lt_div_iff₀ (by norm_num) (by exact_mod_cast hD)]
    rw [one_mul]
    constructor <;> intro h
    · have h2 : (cur.den : ℤ) * prev.den < M * 1000 := by exact_mod_cast h
      linarith
    · have h2 : (cur.den : ℤ) * prev.den < M * 1000 := by linarith
      exact_mod_cast h2
  have hcd0 : ((cur.den : ℤ) : ℚ) ≠ 0 := by positivity
  have hpd0 : ((prev.den : ℤ) : ℚ) ≠ 0 := by positivity
  have hd : cur - prev =
      ((cur.num * prev.den - prev.num * cur.den : ℤ) : ℚ) /
        (((cur.den : ℤ) * prev.den : ℤ) : ℚ) := by
    have h1 : (cur.num : ℚ) / ((cur.den : ℤ) : ℚ) - (prev.num : ℚ) / ((prev.den : ℤ) : ℚ) =
        ((cur.num * prev.den - prev.num * cur.den : ℤ) : ℚ) /
          (((cur.den : ℤ) * prev.den : ℤ) : ℚ) := by
      field_simp
      ring
    rw [← h1]
    push_cast
    rw [Rat.num_div_den, Rat.num_div_den]
  have hneg : -(((cur.num * prev.den - prev.num * cur.den : ℤ) : ℚ) /
      (((cur.den : ℤ) * prev.den : ℤ) : ℚ)) =
      ((prev.num * cur.den - cur.num * prev.den : ℤ) : ℚ) /
        (((cur.den : ℤ) * prev.den : ℤ) : ℚ) := by
    push_cast
    ring
  rw [lt_abs, hd, hneg, key, key]
  unfold mtimeDeltaGtEps
  rw [Bool.or_eq_true, decide_eq_true_iff, decide_eq_true_iff]

/-- `ManifestManager.needs_reprocessing` (src/manager/manifest_manager.py,
lines 99-146).  `fs.sha_hash` models `compute_file_hash`; the mtime epsilon
`0.001` is exact here.  `if dest_path:` is Python truthiness (`None` and the
empty string are falsy). -/
def needs_reprocessing (fs : SrcFS) (source_path : String)
    (previous_hash : Option String) (previous_mtime : Option ℚ)
    (dest_path : Option String) : Bool :=
  if !fs.exists_ source_path then false
  else
    let destMissing : Bool :=
      match dest_path with
      | some d => decide (d ≠ "") && !fs.exists_ d
      | none => false
    let mtimeChanged : Bool :=
      match previous_mtime with
      | some m => mtimeDeltaGtEps (fs.mtime source_path) m
      | none => false
    let hashChanged : Bool :=
      match previous_hash with
      | some h => decide (fs.sha_hash source_path ≠ h)
      | none => false
    if destMissing then true
    else if mtimeChanged then true
    else if hashChanged then true
    else if previous_hash = none ∧ previous_mtime = none then true
    else false

/-- The reprocessing decision procedure as the spec sentence states it
(contract in spec §4.3, C3): destination check, *else* mtime check alone,
*else* hash check alone, else the no-baseline rule.  Written from the
spec's words for comparison against `needs_reprocessing`. -/
def needs_reprocessing_claimed (fs : SrcFS) (source_path : String)
    (previous_hash : Option String) (previous_mtime : Option ℚ)
    (dest_path : Option String) : Bool :=
  match dest_path with
  | some d =>
    if !fs.exists_ d then true
    else needs_reprocessing_claimed_rest fs source_path previous_hash previous_mtime
  | none => needs_reprocessing_claimed_rest fs source_path previous_hash previous_mtime
where
  needs_reprocessing_claimed_rest (fs : SrcFS) (source_path : String)
      (previous_hash : Option String) (previous_mtime : Option ℚ) : Bool :=
    match previous_mtime with
    | some m => mtimeDeltaGtEps (fs.mtime source_path) m
    | none =>
      match previous_hash with
      | some h => decide (fs.sha_hash source_path ≠ h)
      | none => true

/-- The Pic constructed for one processed photo in `_create_ordered_pics`
(src/manager/photo_manager.py, lines 225-261).  `quick_hash` models
`f"sha256-{hash(photo_path.read_bytes())}"`; the gps guard is Python
truthiness (a coordinate of `0.0` or `None` is falsy). -/
def mkPic (fs : SrcFS) (e : Entry) (dest_filename : String) : Pic :=
  { source_path := e.path
    dest_path := dest_filename
    hash := fs.quick_hash e.path
    size_bytes := fs.size_bytes e.path
    mtime := fs.mtime e.path
    timestamp := e.exif.timestamp
    timestamp_source := some (if e.exif.timestamp.isSome then "exif" else "filename")
    camera := e.camera.model
    gps :=
      match e.exif.gps_latitude, e.exif.gps_longitude with
      | some la, some lo =>
        if la ≠ 0 ∧ lo ≠ 0 then
          Json.obj [("latitude", Json.num la), ("longitude", Json.num lo)]
        else Json.null
      | _, _ => Json.null
    errors := [] }

/-- The `for` loop of `_create_ordered_pics`, accumulating the generated
pics; `existing_filenames` is `[p.dest_path for p in pics]` at each step. -/
def createPicsAux (fs : SrcFS) (collection : String) (acc : List Pic) :
    List Entry → Except String (List Pic)
  | [] => .ok acc
  | e :: rest =>
    match generate_filename fs.now e.camera e.exif collection ".jpg"
        (acc.map Pic.dest_path) with
    | .error msg => .error msg
    | .ok name => createPicsAux fs collection (acc ++ [mkPic fs e name]) rest

/-- `_create_ordered_pics` (src/manager/photo_manager.py, lines 221-265). -/
def _create_ordered_pics (fs : SrcFS) (pics_data : List Entry) (collection : String) :
    Except String (List Pic) :=
  createPicsAux fs collection [] pics_data

/-- The change-detection filter loop of `organize_photos` (lines 54-76):
`acc.1` accumulates `unchanged_pics`, `acc.2` accumulates
`photos_to_process`.  The existing-pic lookup dict keyed by `source_path`
keeps the last record for a duplicated key. -/
def organizeSplit (fs : SrcFS) (existing_pics : List Pic) (dest_dir : String) :
    List Pic × List String → List String → List Pic × List String
  | acc, [] => acc
  | acc, p :: ps =>
    organizeSplit fs existing_pics dest_dir
      (match (existing_pics.filter (fun q => decide (q.source_path = p))).getLast? with
       | some pic =>
         if needs_reprocessing fs p (some pic.hash) (some pic.mtime)
             (some (dest_dir ++ "/" ++ pic.dest_path)) = true then
           (acc.1, acc.2 ++ [p])
         else (acc.1 ++ [pic], acc.2)
       | none => (acc.1, acc.2 ++ [p])) ps

/-- `organize_photos` (src/manager/photo_manager.py, lines 15-122), from the
point where the source listing and the prior manifest's pics are in hand, up
to the combined `all_pics = unchanged_pics + newly_processed_pics` list of
the manifest it writes.  Metadata extraction for the photos to process is
`fs.exif`/`fs.camera`.  Symlink creation and manifest serialization do not
affect the returned pic list. -/
def organize_photos (fs : SrcFS) (source_photos : List String)
    (existing_pics : List Pic) (collection_name : String) (dest_dir : String) :
    Except String (List Pic) :=
  match _create_ordered_pics fs
      (_order_photos_with_burst_preservation
        ((organizeSplit fs existing_pics dest_dir ([], []) source_photos).2.map
          (fun p => Entry.mk p (fs.exif p) (fs.camera p)))) collection_name with
  | .error e => .error e
  | .ok newly_processed =>
    .ok ((organizeSplit fs existing_pics dest_dir ([], []) source_photos).1 ++
      newly_processed)

/-!
## Manifest serialization (src/serializer/manifest.py, src/model/schema_v0.py)

`validateManifest` implements `jsonschema.validate` against
`MANIFEST_SCHEMA`: required keys, type checks, enum and range checks.
(`"format": "date-time"` is annotation-only under jsonschema's defaults
and is therefore not checked.)  `deserialize` follows
`ManifestSerializer.deserialize`; `datetime.fromisoformat` is the
injected partial parser `parseIso`, dict subscripting is `getKey`
(raising `KeyError` for an absent key), `.get` is `lookupJson`.
-/

/-- Dictionary lookup; for a duplicated key `json.loads` keeps the last. -/
def lookupJson (fields : List (String × Json)) (k : String) : Option Json :=
  ((fields.filter (fun f => decide (f.1 = k))).getLast?).map Prod.snd

def isStrOrNull : Json → Bool
  | .str _ => true
  | .null => true
  | _ => false

def error_types : List String :=
  ["corrupted_file", "unsupported_format", "exif_error", "filesystem_error",
   "validation_error", "file_skipped"]

/-- `ERROR_SCHEMA`. -/
def validError (j : Json) : Bool :=
  match j with
  | .obj fs =>
    (match lookupJson fs "error_type" with
     | some (.str s) => decide (s ∈ error_types)
     | _ => false) &&
    (match lookupJson fs "source_file" with
     | some (.str _) => true
     | _ => false) &&
    (match lookupJson fs "details" with
     | some v => isStrOrNull v
     | none => true)
  | _ => false

def ts_sources : List String := ["exif", "filename", "filesystem", "unknown"]

/-- The `gps` property schema of `PIC_SCHEMA`. -/
def validGps (j : Json) : Bool :=
  match j with
  | .null => true
  | .obj fs =>
    (match lookupJson fs "lat" with
     | some (.num q) => decide (-90 ≤ q ∧ q ≤ 90)
     | _ => false) &&
    (match lookupJson fs "lon" with
     | some (.num q) => decide (-180 ≤ q ∧ q ≤ 180)
     | _ => false)
  | _ => false

/-- `PIC_SCHEMA`. -/
def validPic (j : Json) : Bool :=
  match j with
  | .obj fs =>
    (match lookupJson fs "source_path" with
     | some (.str _) => true | _ => false) &&
    (match lookupJson fs "dest_path" with
     | some (.str _) => true | _ => false) &&
    (match lookupJson fs "hash" with
     | some (.str _) => true | _ => false) &&
    (match lookupJson fs "size_bytes" with
     | some (.num q) => decide (q.den = 1 ∧ 0 ≤ q)
     | _ => false) &&
    (match lookupJson fs "mtime" with
     | some (.num _) => true | _ => false) &&
    (match lookupJson fs "timestamp" with
     | some v => isStrOrNull v
     | none => true) &&
    (match lookupJson fs "timestamp_source" with
     | some (.str s) => decide (s ∈ ts_sources)
     | some .null => true
     | some _ => false
     | none => true) &&
    (match lookupJson fs "camera" with
     | some v => isStrOrNull v
     | none => true) &&
    (match lookupJson fs "gps" with
     | some v => validGps v
     | none => true) &&
    (match lookupJson fs "errors" with
     | some (.arr xs) => xs.all validError
     | some _ => false
     | none => true) &&
    (match lookupJson fs "warnings" with
     | some (.arr xs) => xs.all validError
     | some _ => false
     | none => true) &&
    (match lookupJson fs "processing_status" with
     | some (.str s) =>
       decide (s ∈ ["processed", "skipped", "failed", "processed_with_warnings"])
     | some _ => false
     | none => true)
  | _ => false

/-- The `processing_status` property schema of `MANIFEST_SCHEMA`. -/
def validProcStatus (j : Json) : Bool :=
  match j with
  | .obj fs =>
    (match lookupJson fs "status" with
     | some (.str s) => decide (s ∈ ["completed", "completed_with_warnings", "failed"])
     | _ => false) &&
    (match lookupJson fs "total_files" with
     | some (.num q) => decide (q.den = 1 ∧ 0 ≤ q)
     | _ => false) &&
    (match lookupJson fs "processed_successfully" with
     | some (.num q) => decide (q.den = 1 ∧ 0 ≤ q)
     | _ => false) &&
    (match lookupJson fs "warnings_count" with
     | some (.num q) => decide (q.den = 1 ∧ 0 ≤ q)
     | some _ => false
     | none => true) &&
    (match lookupJson fs "errors_count" with
     | some (.num q) => decide (q.den = 1 ∧ 0 ≤ q)
     | some _ => false
     | none => true) &&
    (match lookupJson fs "files_skipped" with
     | some (.num q) => decide (q.den = 1 ∧ 0 ≤ q)
     | some _ => false
     | none => true)
  | _ => false

/-- `MANIFEST_SCHEMA` (version is `const`-pinned to "0.1.0"). -/
def validateManifest (j : Json) : Bool :=
  match j with
  | .obj fs =>
    (match lookupJson fs "version" with
     | some (.str s) => decide (s = "0.1.0")
     | _ => false) &&
    (match lookupJson fs "collection_name" with
     | some (.str _) => true | _ => false) &&
    (match lookupJson fs "generated_at" with
     | some (.str _) => true | _ => false) &&
    (match lookupJson fs "pics" with
     | some (.arr xs) => xs.all validPic
     | _ => false) &&
    (match lookupJson fs "collection_description" with
     | some v => isStrOrNull v
     | none => true) &&
    (match lookupJson fs "config" with
     | some (.obj _) => true
     | some .null => true
     | some _ => false
     | none => true) &&
    (match lookupJson fs "errors" with
     | some (.arr xs) => xs.all validError
     | some _ => false
     | none => true) &&
    (match lookupJson fs "warnings" with
     | some (.arr xs) => xs.all validError
     | some _ => false
     | none => true) &&
    (match lookupJson fs "processing_status" with
     | some v => validProcStatus v
     | none => true)
  | _ => false

/-- src/model/manifest.py `Manifest` (optional fields kept as raw JSON,
as `deserialize` stores them). -/
structure Manifest where
  version : String
  collection_name : String
  generated_at : DateTime
  pics : List Pic
  collection_description : Option Json := none
  config : Option Json := none
  errors : Option Json := none
  warnings : Option Json := none
  processing_status : Option Json := none

inductive DErr where
  | keyError (k : String)
  | validationError
  | valueError
  deriving DecidableEq

/-- Dict subscripting `d[k]`: `KeyError` when the key is absent. -/
def getKey (fields : List (String × Json)) (k : String) : Except DErr Json :=
  match lookupJson fields k with
  | some v => .ok v
  | none => .error (.keyError k)

def asStr (j : Json) : Except DErr String :=
  match j with
  | .str s => .ok s
  | _ => .error .valueError

def asNum (j : Json) : Except DErr ℚ :=
  match j with
  | .num q => .ok q
  | _ => .error .valueError

def asInt (j : Json) : Except DErr ℤ :=
  match j with
  | .num q => if q.den = 1 then .ok q.num else .error .valueError
  | _ => .error .valueError

/-- One iteration of the pic loop in `ManifestSerializer.deserialize`
(lines 55-73): subscript accesses in source order, `fromisoformat` only for
a truthy timestamp value, `errors or []`. -/
def parsePic (parseIso : String → Option DateTime) (j : Json) : Except DErr Pic := do
  match j with
  | .obj fs =>
    let tsVal ← getKey fs "timestamp"
    let timestamp ← (match tsVal with
      | .str s =>
        if s = "" then pure none
        else
          match parseIso s with
          | some d => pure (some d)
          | none => Except.error DErr.valueError
      | .null => pure none
      | _ => Except.error DErr.valueError)
    let source_path ← asStr (← getKey fs "source_path")
    let dest_path ← asStr (← getKey fs "dest_path")
    let hash ← asStr (← getKey fs "hash")
    let size_bytes ← asInt (← getKey fs "size_bytes")
    let mtime ← asNum (← getKey fs "mtime")
    let tssVal ← getKey fs "timestamp_source"
    let timestamp_source ← (match tssVal with
      | .null => pure none
      | .str s => pure (some s)
      | _ => Except.error DErr.valueError)
    let camVal ← getKey fs "camera"
    let camera ← (match camVal with
      | .null => pure none
      | .str s => pure (some s)
      | _ => Except.error DErr.valueError)
    let gps ← getKey fs "gps"
    let errsVal ← getKey fs "errors"
    let errors := (match errsVal with
      | .arr xs => xs
      | _ => ([] : List Json))
    pure { source_path, dest_path, hash, size_bytes, mtime, timestamp,
           timestamp_source, camera, gps, errors }
  | _ => .error .valueError

def parsePics (parseIso : String → Option DateTime) :
    List Json → Except DErr (List Pic)
  | [] => .ok []
  | x :: xs => do
    let p ← parsePic parseIso x
    let ps ← parsePics parseIso xs
    pure (p :: ps)

/-- `ManifestSerializer.deserialize` (src/serializer/manifest.py,
lines 35-90), after `json.loads`: schema validation, then the pic loop,
then `generated_at` parsing, then the `Manifest` construction with `.get`
for optional top-level fields. -/
def deserialize (parseIso : String → Option DateTime) (j : Json) :
    Except DErr Manifest := do
  if validateManifest j then
    match j with
    | .obj fs =>
      let picsVal ← getKey fs "pics"
      match picsVal with
      | .arr picsL =>
        let pics ← parsePics parseIso picsL
        let gaStr ← asStr (← getKey fs "generated_at")
        let generated_at ← (match parseIso gaStr with
          | some d => pure d
          | none => Except.error DErr.valueError)
        let version ← asStr (← getKey fs "version")
        let collection_name ← asStr (← getKey fs "collection_name")
        pure { version, collection_name, generated_at, pics,
               collection_description := lookupJson fs "collection_description",
               config := lookupJson fs "config",
               errors := lookupJson fs "errors",
               warnings := lookupJson fs "warnings",
               processing_status := lookupJson fs "processing_status" }
      | _ => .error .valueError
    | _ => .error .valueError
  else .error .validationError

/-!
## Persistence traces (C7)

Manifest persistence is modelled as a sequence of filesystem operations.
A plain `write` is not atomic: interrupting it can leave any prefix of
the content at the path.  A `rename` is atomic.  `ReachableMid` collects
every state an interrupted run can leave behind.
-/

inductive FsOp where
  | write (path : String) (content : String)
  | rename (src dst : String)

def FileSys : Type := String → Option String

def fsUpdate (s : FileSys) (p : String) (v : Option String) : FileSys :=
  fun q => if q = p then v else s q

def applyOp (s : FileSys) : FsOp → FileSys
  | .write p c => fsUpdate s p (some c)
  | .rename src dst =>
    match s src with
    | some c => fsUpdate (fsUpdate s src none) dst (some c)
    | none => s

/-- States an interruption in the middle of a single operation can leave:
a write may persist any prefix of its content; a rename has no
intermediate state. -/
def midWrite (s : FileSys) : FsOp → FileSys → Prop
  | .write p c, s2 => ∃ pre suf, pre ++ suf = c ∧ s2 = fsUpdate s p (some pre)
  | .rename _ _, _ => False

/-- All states reachable when a run of `ops` from state `s` is interrupted
at an arbitrary point (including not at all). -/
def ReachableMid (s : FileSys) : List FsOp → FileSys → Prop
  | [], s2 => s2 = s
  | op :: ops, s2 => s2 = s ∨ midWrite s op s2 ∨ ReachableMid (applyOp s op) ops s2

/-- `Path.with_suffix('.tmp')`: replace the final suffix of the last path
component (append when there is none). -/
def withSuffixTmp (p : String) : String :=
  let cs := p.toList
  let dirR := cs.reverse.dropWhile (fun c => c ≠ '/')
  let nameR := cs.reverse.takeWhile (fun c => c ≠ '/')
  let stemR := if '.' ∈ nameR then (nameR.dropWhile (fun c => c ≠ '.')).drop 1 else nameR
  String.mk (dirR.reverse ++ stemR.reverse ++ ".tmp".toList)

/-- `ManifestManager.save_manifest` (src/manager/manifest_manager.py,
lines 48-70): write the serialized JSON to the `.tmp` sibling, then
atomically `replace` it over the manifest path. -/
def save_manifest_ops (manifest_path : String) (manifest_json : String) : List FsOp :=
  [.write (withSuffixTmp manifest_path) manifest_json,
   .rename (withSuffixTmp manifest_path) manifest_path]

/-- The manifest persistence in `organize_photos` (src/manager/photo_manager.py,
lines 115-120): a single direct `write_text` to the manifest path. -/
def organize_write_ops (manifest_file : String) (manifest_json : String) : List FsOp :=
  [.write manifest_file manifest_json]

/-!
## Concrete fixtures used by witnesses and counterexamples
-/

def fxDt : DateTime := ⟨2024, 10, 5, 14, 30, 45⟩

def fxDt0 : DateTime := ⟨2024, 1, 1, 0, 0, 0⟩

def fxCanonR5 : CameraInfo := ⟨some "Canon", some "EOS R5"⟩

def fxIphone15 : CameraInfo := ⟨some "Apple", some "iPhone 15"⟩

def fxExif123 : ExifData := { timestamp := some fxDt, subsecond := some 123 }

/-- A filesystem where every path exists, the source mtime is 5 and its
sha-256 digest is "h1". -/
def fxFs : SrcFS :=
  ⟨fun _ => true, fun _ => (5 : ℚ), fun _ => 0, fun _ => "h1", fun _ => "q",
   fun _ => {}, fun _ => {}, fxDt⟩

/-- A filesystem where no path exists. -/
def fxFsMissing : SrcFS :=
  ⟨fun _ => false, fun _ => (5 : ℚ), fun _ => 0, fun _ => "h1", fun _ => "q",
   fun _ => {}, fun _ => {}, fxDt⟩

/-!
## C10
-/

/-- C10: whenever the source file does not exist, `needs_reprocessing`
returns false, regardless of the remaining arguments — including a supplied
and missing `dest_path`, and including the no-baseline case. -/
theorem C10_needs_reprocessing_missing_source (fs : SrcFS) (source_path : String)
    (previous_hash : Option String) (previous_mtime : Option ℚ)
    (dest_path : Option String) (h : fs.exists_ source_path = false) :
    needs_reprocessing fs source_path previous_hash previous_mtime dest_path = false := by
  unfold needs_reprocessing
  simp [h]

/-- C10 witness: a missing source with a supplied, missing destination and
no baseline still yields false. -/
theorem C10_needs_reprocessing_missing_source_witness :
    needs_reprocessing fxFsMissing "src/a.jpg" none none (some "dest/out.jpg") = false :=
  C10_needs_reprocessing_missing_source fxFsMissing "src/a.jpg" none none
    (some "dest/out.jpg") rfl

/-!
## C3
-/

/-- C3 counterexample: with the source present, an unchanged mtime baseline
and a changed hash baseline both supplied, `needs_reprocessing` returns true
(the code falls through from the mtime check to the hash check), while the
decision procedure claimed by the spec — which consults the hash only when
no mtime is supplied — returns false. -/
theorem C3_needs_reprocessing_counterexample :
    needs_reprocessing fxFs "src/a.jpg" (some "h2") (some 5) none = true ∧
      needs_reprocessing_claimed fxFs "src/a.jpg" (some "h2") (some 5) none = false := by
  constructor <;> decide

/-- C3 amended: `needs_reprocessing` returns true iff the source exists and
(the supplied destination is truthy and missing, or the supplied mtime
baseline differs from the current mtime by more than 0.001, or the supplied
hash baseline differs from the recomputed hash, or no baseline was supplied
at all); the mtime and hash checks are sequential, not exclusive. -/
theorem C3_needs_reprocessing_characterization (fs : SrcFS) (source_path : String)
    (previous_hash : Option String) (previous_mtime : Option ℚ)
    (dest_path : Option String) :
    needs_reprocessing fs source_path previous_hash previous_mtime dest_path = true ↔
      fs.exists_ source_path = true ∧
      ((∃ d, dest_path = some d ∧ d ≠ "" ∧ fs.exists_ d = false) ∨
       (∃ m, previous_mtime = some m ∧ (1 : ℚ)/1000 < |fs.mtime source_path - m|) ∨
       (∃ h, previous_hash = some h ∧ fs.sha_hash source_path ≠ h) ∨
       (previous_hash = none ∧ previous_mtime = none)) := by
  by_cases hex : fs.exists_ source_path = true
  · rcases dest_path with _ | d <;> rcases previous_mtime with _ | m <;>
      rcases previous_hash with _ | h <;>
      simp [needs_reprocessing, hex, mtimeDeltaGtEps_iff]
  · have hex2 : fs.exists_ source_path = false := by
      cases hval : fs.exists_ source_path
      · rfl
      · exact absurd hval hex
    simp [needs_reprocessing, hex2]

/-!
## C1

The sort key is `(0, timestamp_microsec, subsec_priority, name)` with the
subsecond already *added into* `timestamp_microsec`, so `subsec_priority`
is compared only after the subsecond-laden numeric timestamp; and
`if exif_data.subsecond:` treats `subsecond=0` like `None`.  Both effects
contradict the claimed presence-first ordering; the in-code comment
("add large offset to sort after") describes the intended behavior that
the code does not implement.
-/

def fxSub500 : Entry := ⟨"a.jpg", { timestamp := some fxDt, subsecond := some 500 }, {}⟩

def fxNoSub : Entry := ⟨"b.jpg", { timestamp := some fxDt, subsecond := none }, {}⟩

def fxSub0 : Entry := ⟨"b0.jpg", { timestamp := some fxDt, subsecond := some 0 }, {}⟩

def fxNoSubA : Entry := ⟨"a0.jpg", { timestamp := some fxDt, subsecond := none }, {}⟩

/-- C1: evaluating the code at the failing inputs.  Same whole second in
both pairs.  First pair: the entry with subsecond 500 is placed *after*
the entry without subsecond (its numeric key is larger), though the claim
puts any defined subsecond strictly first.  Second pair: the entry with
subsecond 0 is treated exactly like an entry without subsecond, and the
filename tie-break puts the subsecond-less entry first. -/
theorem C1_subsecond_priority_code_eval :
    _order_photos_temporally [fxSub500, fxNoSub] = [fxNoSub, fxSub500] ∧
      _order_photos_temporally [fxSub0, fxNoSubA] = [fxNoSubA, fxSub0] := by
  constructor <;> decide

/-!
## C9
-/

def fxDup1 : Entry := ⟨"d1/x.jpg", {}, {}⟩

def fxDup2 : Entry := ⟨"d2/x.jpg", {}, {}⟩

/-- C9 counterexample: two distinct timestamp-less entries from different
directories share the same filename, hence the same sort key; the stable
sort preserves the input order, so the two input permutations produce
different output sequences. -/
theorem C9_order_not_permutation_invariant :
    [fxDup1, fxDup2].Perm [fxDup2, fxDup1] ∧
      _order_photos_with_burst_preservation [fxDup1, fxDup2] = [fxDup1, fxDup2] ∧
      _order_photos_with_burst_preservation [fxDup2, fxDup1] = [fxDup2, fxDup1] ∧
      [fxDup1, fxDup2] ≠ [fxDup2, fxDup1] := by
  refine ⟨List.Perm.swap fxDup2 fxDup1 [], by decide, by decide, by decide⟩

/-- C9 amended: the ordering engine is permutation-invariant on inputs
whose sort keys `(timestamp presence, timestamp+subsecond, subsecond
priority, filename)` are pairwise distinct; with duplicated keys the
stable sort preserves the input order of the tied entries. -/
theorem C9_order_permutation_invariant_distinct_keys (l₁ l₂ : List Entry)
    (hp : l₁.Perm l₂) (hnd : (l₁.map sort_key).Nodup) :
    _order_photos_with_burst_preservation l₁ = _order_photos_with_burst_preservation l₂ := by
  have hsorted₁ := sortS_pairwise entLE entLE_total entLE_trans l₁
  have hsorted₂ := sortS_pairwise entLE entLE_total entLE_trans l₂
  have hperm : (sortS entLE l₁).Perm (sortS entLE l₂) :=
    ((sortS_perm entLE l₁).trans hp).trans (sortS_perm entLE l₂).symm
  have hnd₁ : ((sortS entLE l₁).map sort_key).Nodup :=
    (((sortS_perm entLE l₁).map sort_key).nodup_iff).mpr hnd
  have heq : sortS entLE l₁ = sortS entLE l₂ :=
    sorted_perm_eq_of_nodup_keys hperm hsorted₁ hsorted₂ hnd₁
  unfold _order_photos_with_burst_preservation _order_photos_temporally
  rw [heq]

def fxK1 : Entry := ⟨"a.jpg", { timestamp := some fxDt, subsecond := some 100 }, {}⟩

def fxK2 : Entry := ⟨"b.jpg", { timestamp := some fxDt, subsecond := some 200 }, {}⟩

/-- C9 witness: a two-element permutation with distinct sort keys is
ordered identically from both enumeration orders. -/
theorem C9_order_permutation_invariant_witness :
    _order_photos_with_burst_preservation [fxK1, fxK2] =
      _order_photos_with_burst_preservation [fxK2, fxK1] :=
  C9_order_permutation_invariant_distinct_keys [fxK1, fxK2] [fxK2, fxK1]
    (List.Perm.swap fxK2 fxK1 []) (by decide)

/-!
## Filename generator lemmas (C5, C6)
-/

theorem counterScan_ok_not_mem (base ext : String) (existing : List String) :
    ∀ n start c, counterScan base ext existing start n = .ok c →
      counter_name base ext c ∉ existing := by
  intro n
  induction n with
  | zero => intro start c h; simp [counterScan] at h
  | succ k ih =>
    intro start c h
    unfold counterScan at h
    by_cases hm : counter_name base ext start ∈ existing
    · rw [if_pos hm] at h
      exact ih (start + 1) c h
    · rw [if_neg hm] at h
      have : start = c := by
        simpa using h
      exact this ▸ hm

theorem counterScan_ok_bounds (base ext : String) (existing : List String) :
    ∀ n start c, counterScan base ext existing start n = .ok c →
      start ≤ c ∧ c < start + n := by
  intro n
  induction n with
  | zero => intro start c h; simp [counterScan] at h
  | succ k ih =>
    intro start c h
    unfold counterScan at h
    by_cases hm : counter_name base ext start ∈ existing
    · rw [if_pos hm] at h
      rcases ih (start + 1) c h with ⟨h1, h2⟩
      omega
    · rw [if_neg hm] at h
      have : start = c := by simpa using h
      omega

theorem counterScan_ok_min (base ext : String) (existing : List String) :
    ∀ n start c, start ≤ c → c < start + n →
      counter_name base ext c ∉ existing →
      (∀ k, start ≤ k → k < c → counter_name base ext k ∈ existing) →
      counterScan base ext existing start n = .ok c := by
  intro n
  induction n with
  | zero => intro start c h1 h2 _ _; omega
  | succ k ih =>
    intro start c h1 h2 hfree htaken
    unfold counterScan
    by_cases heq : start = c
    · rw [if_neg (heq ▸ hfree)]
      rw [heq]
    · have hlt : start < c := by omega
      rw [if_pos (htaken start (le_refl _) hlt)]
      exact ih (start + 1) c (by omega) (by omega) hfree
        (fun j hj1 hj2 => htaken j (by omega) hj2)

theorem counterScan_all_mem_error (base ext : String) (existing : List String) :
    ∀ n start, (∀ k, start ≤ k → k < start + n → counter_name base ext k ∈ existing) →
      ∃ msg, counterScan base ext existing start n = .error msg := by
  intro n
  induction n with
  | zero => intro start _; exact ⟨_, rfl⟩
  | succ k ih =>
    intro start htaken
    unfold counterScan
    rw [if_pos (htaken start (le_refl _) (by omega))]
    exact ih (start + 1) (fun j hj1 hj2 => htaken j (by omega) (by omega))

theorem generate_filename_ok_not_mem (now : DateTime) (ci : CameraInfo) (x : ExifData)
    (coll ext : String) (existing : List String) (r : String)
    (h : generate_filename now ci x coll ext existing = .ok r) : r ∉ existing := by
  unfold generate_filename at h
  by_cases hc : existing = [] ∨ base_of now ci x coll ++ ext ∉ existing
  · rw [if_pos hc] at h
    have hr : base_of now ci x coll ++ ext = r := by simpa using h
    rcases hc with hc | hc
    · rw [hc, ← hr]; simp
    · exact hr ▸ hc
  · rw [if_neg hc] at h
    cases hfind : find_available_counter (base_of now ci x coll) ext existing with
    | error e => rw [hfind] at h; simp at h
    | ok c =>
      rw [hfind] at h
      have hr : counter_name (base_of now ci x coll) ext c = r := by simpa using h
      unfold find_available_counter at hfind
      have hne : ¬ existing = [] := fun he => hc (Or.inl he)
      rw [if_neg hne] at hfind
      exact hr ▸ counterScan_ok_not_mem _ _ _ 32 0 c hfind

theorem base_of_shape (now : DateTime) (ci : CameraInfo) (x : ExifData)
    (coll : String) (ts : DateTime) (h : x.timestamp = some ts) :
    base_of now ci x coll =
      (if coll = "" then "" else coll ++ "-") ++ format_timestamp ts ++ "-" ++
        get_camera_code ci := by
  unfold base_of
  rw [h]
  by_cases hc : coll = ""
  · simp [hc, joinDash, String.append_assoc]
  · simp [hc, joinDash, String.append_assoc]

/-!
## C5
-/

/-- C5: with a metadata timestamp present, the generated name is the base
name (optional collection prefix, `YYYYMMDDTHHMMSS` timestamp, camera
code, extension) unchanged when it is not among `existing_filenames`;
on a collision it is the base name with `-{c}` appended, where `c` is the
symbol at the lowest free index of the 32-symbol alphabet `0-9A-V`; and on
the spec's concrete example it returns
`"wedding-20241005T143045-r5a.jpg"`. -/
theorem C5_generate_filename_spec (now : DateTime) (ci : CameraInfo) (x : ExifData)
    (coll ext : String) (existing : List String) (ts : DateTime)
    (hts : x.timestamp = some ts) :
    base_of now ci x coll =
      (if coll = "" then "" else coll ++ "-") ++ format_timestamp ts ++ "-" ++
        get_camera_code ci
    ∧ (base_of now ci x coll ++ ext ∉ existing →
        generate_filename now ci x coll ext existing = .ok (base_of now ci x coll ++ ext))
    ∧ (∀ c, c < 32 → base_of now ci x coll ++ ext ∈ existing →
        counter_name (base_of now ci x coll) ext c ∉ existing →
        (∀ k, k < c → counter_name (base_of now ci x coll) ext k ∈ existing) →
        generate_filename now ci x coll ext existing =
          .ok (counter_name (base_of now ci x coll) ext c))
    ∧ generate_filename fxDt fxCanonR5 fxExif123 "wedding" ".jpg" [] =
        .ok "wedding-20241005T143045-r5a.jpg" := by
  refine ⟨base_of_shape now ci x coll ts hts, ?_, ?_, by decide⟩
  · intro hnm
    unfold generate_filename
    rw [if_pos (Or.inr hnm)]
  · intro c hc hmem hfree htaken
    unfold generate_filename
    have hcond : ¬ (existing = [] ∨ base_of now ci x coll ++ ext ∉ existing) := by
      rintro (he | hn)
      · exact absurd (he ▸ hmem) (List.not_mem_nil _)
      · exact hn hmem
    rw [if_neg hcond]
    have hne : ¬ existing = [] := fun he => hcond (Or.inl he)
    have hfind : find_available_counter (base_of now ci x coll) ext existing = .ok c := by
      unfold find_available_counter
      rw [if_neg hne]
      exact counterScan_ok_min _ _ _ 32 0 c (Nat.zero_le c) (by omega) hfree
        (fun k _ hk2 => htaken k hk2)
    rw [hfind]

/-- C5 witness: one prior collision forces the first counter symbol. -/
theorem C5_generate_filename_spec_witness :
    generate_filename fxDt fxCanonR5 fxExif123 "wedding" ".jpg"
      ["wedding-20241005T143045-r5a.jpg"] =
      .ok (counter_name (base_of fxDt fxCanonR5 fxExif123 "wedding") ".jpg" 0) :=
  (C5_generate_filename_spec fxDt fxCanonR5 fxExif123 "wedding" ".jpg"
      ["wedding-20241005T143045-r5a.jpg"] fxDt rfl).2.2.1 0 (by decide) (by decide)
    (by decide) (fun k hk => absurd hk (by omega))

/-!
## C6
-/

/-- C6: when the base name collides and all 32 counter-suffixed names are
taken, `generate_filename` fails with the exhaustion error; and every
successful result is either the base name or one of the 32 counter
names. -/
theorem C6_generate_filename_exhaustion (now : DateTime) (ci : CameraInfo) (x : ExifData)
    (coll ext : String) (existing : List String) :
    (base_of now ci x coll ++ ext ∈ existing →
      (∀ c, c < 32 → counter_name (base_of now ci x coll) ext c ∈ existing) →
      ∃ msg, generate_filename now ci x coll ext existing = .error msg)
    ∧ (∀ r, generate_filename now ci x coll ext existing = .ok r →
        r = base_of now ci x coll ++ ext ∨
          ∃ c, c < 32 ∧ r = counter_name (base_of now ci x coll) ext c) := by
  constructor
  · intro hmem htaken
    unfold generate_filename
    have hcond : ¬ (existing = [] ∨ base_of now ci x coll ++ ext ∉ existing) := by
      rintro (he | hn)
      · exact absurd (he ▸ hmem) (List.not_mem_nil _)
      · exact hn hmem
    rw [if_neg hcond]
    have hne : ¬ existing = [] := fun he => hcond (Or.inl he)
    rcases counterScan_all_mem_error (base_of now ci x coll) ext existing 32 0
        (fun k _ hk => htaken k (by omega)) with ⟨msg, hscan⟩
    have hfind : find_available_counter (base_of now ci x coll) ext existing = .error msg := by
      unfold find_available_counter
      rw [if_neg hne]
      exact hscan
    rw [hfind]
    exact ⟨msg, rfl⟩
  · intro r h
    unfold generate_filename at h
    by_cases hc : existing = [] ∨ base_of now ci x coll ++ ext ∉ existing
    · rw [if_pos hc] at h
      exact Or.inl (by simpa using h.symm)
    · rw [if_neg hc] at h
      have hne : ¬ existing = [] := fun he => hc (Or.inl he)
      cases hfind : find_available_counter (base_of now ci x coll) ext existing with
      | error e => rw [hfind] at h; simp at h
      | ok c =>
        rw [hfind] at h
        have hr : r = counter_name (base_of now ci x coll) ext c := by simpa using h.symm
        unfold find_available_counter at hfind
        rw [if_neg hne] at hfind
        have hb := counterScan_ok_bounds (base_of now ci x coll) ext existing 32 0 c hfind
        exact Or.inr ⟨c, by omega, hr⟩

def fxCamNone : CameraInfo := ⟨none, none⟩

/-- All 33 names of the base-or-counter scheme for the `unk` camera. -/
def fxExhausted : List String :=
  (base_of fxDt fxCamNone fxExif123 "c" ++ ".jpg") ::
    (List.range 32).map (counter_name (base_of fxDt fxCamNone fxExif123 "c") ".jpg")

/-- C6 witness: a 33rd collision errors. -/
theorem C6_generate_filename_exhaustion_witness :
    ∃ msg, generate_filename fxDt fxCamNone fxExif123 "c" ".jpg" fxExhausted =
      .error msg :=
  (C6_generate_filename_exhaustion fxDt fxCamNone fxExif123 "c" ".jpg" fxExhausted).1
    (by decide) (by decide)

/-!
## C2
-/

theorem createPicsAux_nodup (fs : SrcFS) (coll : String) :
    ∀ (entries : List Entry) (acc pics : List Pic),
      (acc.map Pic.dest_path).Nodup →
      createPicsAux fs coll acc entries = .ok pics →
      (pics.map Pic.dest_path).Nodup := by
  intro entries
  induction entries with
  | nil =>
    intro acc pics hnd h
    have hac : acc = pics := by simpa [createPicsAux] using h
    exact hac ▸ hnd
  | cons e rest ih =>
    intro acc pics hnd h
    unfold createPicsAux at h
    cases hg : generate_filename fs.now e.camera e.exif coll ".jpg"
        (acc.map Pic.dest_path) with
    | error m => rw [hg] at h; simp at h
    | ok name =>
      rw [hg] at h
      refine ih (acc ++ [mkPic fs e name]) pics ?_ h
      rw [List.map_append, List.nodup_append]
      refine ⟨hnd, List.nodup_singleton _, ?_⟩
      intro a ha hb
      have han : a = name := by simpa [mkPic] using hb
      exact generate_filename_ok_not_mem fs.now e.camera e.exif coll ".jpg"
        (acc.map Pic.dest_path) name hg (han ▸ ha)

theorem organizeSplit_empty_fst (fs : SrcFS) (dd : String) :
    ∀ (l : List String) (acc : List Pic × List String),
      (organizeSplit fs [] dd acc l).1 = acc.1 := by
  intro l
  induction l with
  | nil => intro acc; rfl
  | cons p ps ih => intro acc; exact ih (acc.1, acc.2 ++ [p])

theorem organize_photos_no_reuse_shape (fs : SrcFS) (srcs : List String)
    (coll dd : String) (pics : List Pic)
    (h : organize_photos fs srcs [] coll dd = .ok pics) :
    ∃ ordered, _create_ordered_pics fs ordered coll = .ok pics := by
  unfold organize_photos at h
  split at h
  · exact absurd h (by simp)
  · next newly heq =>
      have happ := Except.ok.inj h
      rw [organizeSplit_empty_fst fs dd srcs ([], [])] at happ
      simp only [List.nil_append] at happ
      exact ⟨_, heq.trans (by rw [happ])⟩

/-- C2 counterexample: an incremental run.  The prior manifest's reused
record keeps dest name `c-20240101T000000-unk.jpg`; a new photo with the
same timestamp and no camera generates the same name, because
`_create_ordered_pics` seeds `existing_filenames` only with the newly
processed names.  The resulting manifest pic list has a duplicated
`dest_path`. -/
def fxPic0 : Pic :=
  { source_path := "src/old.jpg", dest_path := "c-20240101T000000-unk.jpg",
    hash := "h0", size_bytes := 10, mtime := 5 }

def fxFsInc : SrcFS :=
  { exists_ := fun _ => true
    mtime := fun _ => (5 : ℚ)
    size_bytes := fun _ => 10
    sha_hash := fun _ => "h0"
    quick_hash := fun _ => "qh"
    exif := fun p => if p = "src/new.jpg" then { timestamp := some fxDt0 } else {}
    camera := fun _ => {}
    now := fxDt }

theorem C2_dest_path_duplicate_counterexample :
    ∃ pics, organize_photos fxFsInc ["src/old.jpg", "src/new.jpg"] [fxPic0] "c" "dest" =
      .ok pics ∧ ¬ (pics.map Pic.dest_path).Nodup :=
  ⟨_, rfl, by decide⟩

/-- C2 amended: the `dest_path` values of the *newly processed* pics are
pairwise distinct (the generator's collision-avoidance counter is checked
against the names accumulated in the same run), and hence in a run that
reuses no prior records the manifest's `dest_path` values are pairwise
distinct; across the reused-plus-new merge of an incremental run,
duplicates are possible. -/
theorem C2_dest_paths_nodup (fs : SrcFS) :
    (∀ (pics_data : List Entry) (coll : String) (pics : List Pic),
      _create_ordered_pics fs pics_data coll = .ok pics →
      (pics.map Pic.dest_path).Nodup)
    ∧ (∀ (srcs : List String) (coll dd : String) (pics : List Pic),
      organize_photos fs srcs [] coll dd = .ok pics →
      (pics.map Pic.dest_path).Nodup) := by
  constructor
  · intro pics_data coll pics h
    exact createPicsAux_nodup fs coll pics_data [] pics (by simp) h
  · intro srcs coll dd pics h
    rcases organize_photos_no_reuse_shape fs srcs coll dd pics h with ⟨ordered, hcr⟩
    exact createPicsAux_nodup fs coll ordered [] pics (by simp) hcr

def fxNewPic : Pic :=
  { source_path := "src/new.jpg", dest_path := "c-20240101T000000-unk.jpg",
    hash := "qh", size_bytes := 10, mtime := 5, timestamp := some fxDt0,
    timestamp_source := some "exif", camera := none, gps := Json.null, errors := [] }

/-- C2 witness: a run with no reused records produces distinct dest names. -/
theorem C2_dest_paths_nodup_witness : ([fxNewPic].map Pic.dest_path).Nodup :=
  (C2_dest_paths_nodup fxFsInc).2 ["src/new.jpg"] "c" "dest" [fxNewPic] rfl

/-!
## C7
-/

/-- C7 counterexample: `organize_photos` persists the manifest with a
single direct `write_text` (src/manager/photo_manager.py lines 115-120),
not via `save_manifest`'s write-temp-then-rename.  Interrupting that
write can leave the destination holding a strict prefix of the JSON:
from an empty filesystem, the state holding just `"a"` of `"ab"` at the
manifest path is reachable, and it is neither the old content (absent)
nor the full new content. -/
theorem C7_direct_write_partial_counterexample :
    ReachableMid (fun _ => none) (organize_write_ops "dest/manifest.json" "ab")
      (fsUpdate (fun _ => none) "dest/manifest.json" (some "a")) ∧
    fsUpdate (fun _ => none) "dest/manifest.json" (some "a") "dest/manifest.json" ≠ none ∧
    fsUpdate (fun _ => none) "dest/manifest.json" (some "a") "dest/manifest.json" ≠
      some "ab" := by
  refine ⟨Or.inr (Or.inl ⟨"a", "b", rfl, rfl⟩), ?_, ?_⟩ <;> decide

/-- C7 amended: `ManifestManager.save_manifest` is write-temp-then-rename
and is atomic for the manifest path: at every intermediate state of an
interrupted run, the manifest path holds either its previous content or
the complete new content (never partial content).  `organize_photos`,
however, writes the manifest directly with `write_text`, which is not
atomic (see the counterexample). -/
theorem C7_save_manifest_atomic (manifest_path manifest_json : String)
    (init s2 : FileSys) (hTmp : withSuffixTmp manifest_path ≠ manifest_path)
    (hreach : ReachableMid init (save_manifest_ops manifest_path manifest_json) s2) :
    s2 manifest_path = init manifest_path ∨ s2 manifest_path = some manifest_json := by
  rcases hreach with h | h | h
  · exact Or.inl (by rw [h])
  · rcases h with ⟨pre, suf, _, hs2⟩
    refine Or.inl ?_
    rw [hs2]
    unfold fsUpdate
    rw [if_neg (fun hc => hTmp hc.symm)]
  · rcases h with h | h | h
    · refine Or.inl ?_
      rw [h]
      show fsUpdate init (withSuffixTmp manifest_path) (some manifest_json) manifest_path =
        init manifest_path
      unfold fsUpdate
      rw [if_neg (fun hc => hTmp hc.symm)]
    · exact absurd h (by simp [midWrite])
    · refine Or.inr ?_
      rw [h]
      have h1 : fsUpdate init (withSuffixTmp manifest_path) (some manifest_json)
          (withSuffixTmp manifest_path) = some manifest_json := by
        unfold fsUpdate; rw [if_pos rfl]
      show applyOp (fsUpdate init (withSuffixTmp manifest_path) (some manifest_json))
        (FsOp.rename (withSuffixTmp manifest_path) manifest_path) manifest_path =
        some manifest_json
      simp only [applyOp, h1]
      unfold fsUpdate
      rw [if_pos rfl]

/-- The final filesystem state of an uninterrupted `save_manifest` run from
an empty filesystem. -/
def fxSaveFinal : FileSys :=
  applyOp (applyOp (fun _ => none) (FsOp.write (withSuffixTmp "manifest.json") "ab"))
    (FsOp.rename (withSuffixTmp "manifest.json") "manifest.json")

/-- C7 witness: the completed save leaves old-or-new content at the
manifest path. -/
theorem C7_save_manifest_atomic_witness :
    fxSaveFinal "manifest.json" = (fun _ => none : FileSys) "manifest.json" ∨
      fxSaveFinal "manifest.json" = some "ab" :=
  C7_save_manifest_atomic "manifest.json" "ab" (fun _ => none) fxSaveFinal
    (by decide) (Or.inr (Or.inr (Or.inr (Or.inr rfl))))

/-!
## C4
-/

theorem tsEq_timestamp {t : DateTime} {x : Entry} (h : tsEq t x = true) :
    x.exif.timestamp = some t := by
  unfold tsEq at h
  cases hx : x.exif.timestamp with
  | none => rw [hx] at h; cases h
  | some u =>
    rw [hx] at h
    have : u = t := by simpa using h
    rw [this]

theorem runsOfF_shape :
    ∀ fuel (l : List Entry) g, l.length ≤ fuel → g ∈ runsOfF fuel l →
      ∃ e rest, g = e :: rest ∧
        (e.exif.timestamp = none → rest = []) ∧
        (∀ t, e.exif.timestamp = some t → ∀ x ∈ rest, x.exif.timestamp = some t) := by
  intro fuel
  induction fuel with
  | zero =>
    intro l g hlen hg
    cases l with
    | nil => cases hg
    | cons e rest => simp at hlen
  | succ f ih =>
    intro l g hlen hg
    cases l with
    | nil => cases hg
    | cons e rest =>
      cases ht : e.exif.timestamp with
      | none =>
        rw [show runsOfF (f + 1) (e :: rest) = [e] :: runsOfF f rest by
          simp [runsOfF, ht]] at hg
        rcases List.mem_cons.mp hg with rfl | hg2
        · exact ⟨e, [], rfl, fun _ => rfl, fun t htc => by rw [ht] at htc; cases htc⟩
        · exact ih rest g (by simpa using hlen) hg2
      | some t =>
        rw [show runsOfF (f + 1) (e :: rest) =
            (e :: rest.takeWhile (tsEq t)) :: runsOfF f (rest.dropWhile (tsEq t)) by
          simp [runsOfF, ht]] at hg
        rcases List.mem_cons.mp hg with rfl | hg2
        · refine ⟨e, rest.takeWhile (tsEq t), rfl, (fun hn => by simp [ht] at hn), ?_⟩
          intro u hu x hx
          have hut : u = t := by rw [ht] at hu; exact (Option.some.inj hu).symm
          rw [hut]
          exact tsEq_timestamp (List.mem_takeWhile_imp hx)
        · exact ih (rest.dropWhile (tsEq t)) g
            (le_trans (length_dropWhile_le _ _) (by simpa using hlen)) hg2

theorem runsOfF_sublist :
    ∀ fuel (l : List Entry) g, l.length ≤ fuel → g ∈ runsOfF fuel l → g.Sublist l := by
  intro fuel
  induction fuel with
  | zero =>
    intro l g hlen hg
    cases l with
    | nil => cases hg
    | cons e rest => simp at hlen
  | succ f ih =>
    intro l g hlen hg
    cases l with
    | nil => cases hg
    | cons e rest =>
      cases ht : e.exif.timestamp with
      | none =>
        rw [show runsOfF (f + 1) (e :: rest) = [e] :: runsOfF f rest by
          simp [runsOfF, ht]] at hg
        rcases List.mem_cons.mp hg with rfl | hg2
        · exact List.Sublist.cons₂ e (List.nil_sublist rest)
        · exact List.Sublist.cons e (ih rest g (by simpa using hlen) hg2)
      | some t =>
        rw [show runsOfF (f + 1) (e :: rest) =
            (e :: rest.takeWhile (tsEq t)) :: runsOfF f (rest.dropWhile (tsEq t)) by
          simp [runsOfF, ht]] at hg
        rcases List.mem_cons.mp hg with rfl | hg2
        · exact List.Sublist.cons₂ e (List.takeWhile_sublist _)
        · exact List.Sublist.cons e
            ((ih (rest.dropWhile (tsEq t)) g
              (le_trans (length_dropWhile_le _ _) (by simpa using hlen)) hg2).trans
              (List.dropWhile_sublist _))

theorem flatMap_snd_eq (F : String → List Entry) :
    ∀ (L : List (String × List Entry)), (∀ p ∈ L, p.2 = F p.1) →
      L.flatMap Prod.snd = (L.map Prod.fst).flatMap F := by
  intro L
  induction L with
  | nil => intro _; rfl
  | cons p ps ih =>
    intro h
    simp only [List.flatMap_cons, List.map_cons]
    rw [h p (List.mem_cons_self _ _), ih (fun q hq => h q (List.mem_cons_of_mem p hq))]

/-- Within a group of timestamped entries, the Python sort key orders by
the subsecond-laden millisecond timestamp first. -/
theorem entLE_tms_le {a b : Entry} (h : entLE a b = true)
    (ha : a.exif.timestamp.isSome) (hb : b.exif.timestamp.isSome) :
    full_ts_ms a ≤ full_ts_ms b := by
  rcases Option.isSome_iff_exists.mp ha with ⟨ta, hta⟩
  rcases Option.isSome_iff_exists.mp hb with ⟨tb, htb⟩
  unfold entLE keyLE at h
  rw [show sort_key a = (0, full_ts_ms a, subPrio a.exif, pathName a.path) by
    simp [sort_key, hta]] at h
  rw [show sort_key b = (0, full_ts_ms b, subPrio b.exif, pathName b.path) by
    simp [sort_key, htb]] at h
  rcases (prodLE_true_iff natLT_trich natLT_asym).mp h with h0 | ⟨_, h1⟩
  · exact absurd h0 (by simp [natLT])
  · rcases (prodLE_true_iff intLT_trich intLT_asym).mp h1 with h2 | ⟨h2, _⟩
    · exact le_of_lt (by simpa [intLT] using h2)
    · exact le_of_eq h2

/-- C4: the engine's output is the concatenation of the processed
same-second runs; a run with at most one distinct camera identity is
emitted unchanged; a run with more than one is partitioned into contiguous
per-camera sub-groups — the output equals a flatMap of the per-camera
filters of the run over a duplicate-free permutation `ks` of the camera
keys — ordered by non-decreasing earliest full (second+subsecond)
timestamp, where each sub-group's earliest timestamp bounds every member. -/
theorem C4_burst_regroup (l : List Entry) (g : List Entry)
    (hg : g ∈ runsOf (_order_photos_temporally l)) :
    _order_photos_with_burst_preservation l =
      (runsOf (_order_photos_temporally l)).flatMap processRun
    ∧ ((firstOccs (g.map camKeyOf)).length ≤ 1 → processRun g = g)
    ∧ (1 < (firstOccs (g.map camKeyOf)).length →
        ∃ ks : List String,
          ks.Perm (firstOccs (g.map camKeyOf)) ∧ ks.Nodup ∧
          processRun g =
            ks.flatMap (fun c => g.filter (fun x => decide (camKeyOf x = c))) ∧
          (ks.map (fun c =>
            earliest_ms (g.filter (fun x => decide (camKeyOf x = c))))).Pairwise
            (· ≤ ·) ∧
          (∀ c ∈ ks, ∀ x ∈ g.filter (fun x => decide (camKeyOf x = c)),
            earliest_ms (g.filter (fun x => decide (camKeyOf x = c))) ≤
              full_ts_ms x)) := by
  rcases runsOfF_shape _ _ g (le_refl _) hg with ⟨e, rest, rfl, hnone, hsome⟩
  refine ⟨burstLoop_eq_flatMap (_order_photos_temporally l), ?_, ?_⟩
  · intro hle
    cases ht : e.exif.timestamp with
    | none => simp [processRun, ht]
    | some t =>
      simp only [processRun, ht]
      rw [if_pos hle]
  · intro hgt
    cases ht : e.exif.timestamp with
    | none =>
      exfalso
      rw [hnone ht] at hgt
      simp [firstOccs, firstOccsAux] at hgt
    | some t =>
      have hts : ∀ x ∈ e :: rest, x.exif.timestamp = some t := by
        intro x hx
        rcases List.mem_cons.mp hx with rfl | hx2
        · exact ht
        · exact hsome t ht x hx2
      have hgPW : (e :: rest).Pairwise (fun x y => entLE x y = true) :=
        List.Pairwise.sublist (runsOfF_sublist _ _ _ (le_refl _) hg)
          (sortS_pairwise entLE entLE_total entLE_trans l)
      have hproc : processRun (e :: rest) = regroup (e :: rest) := by
        simp only [processRun, ht]
        rw [if_neg (show ¬ (firstOccs ((e :: rest).map camKeyOf)).length ≤ 1 by omega)]
      set g := e :: rest with hgdef
      set cams := firstOccs (g.map camKeyOf) with hcams
      set F : String → List Entry :=
        fun c => g.filter (fun x => decide (camKeyOf x = c)) with hF
      set groups := cams.map (fun c => (c, F c)) with hgroups
      set sortedG := sortS groupLE groups with hsorted
      have hshape : ∀ p ∈ sortedG, p.2 = F p.1 := by
        intro p hp
        have hpg : p ∈ groups := (sortS_perm groupLE groups).mem_iff.mp hp
        rcases List.mem_map.mp hpg with ⟨c, _, rfl⟩
        rfl
      have hmapfst : groups.map Prod.fst = cams := by
        rw [hgroups, List.map_map]
        exact List.map_id cams
      refine ⟨sortedG.map Prod.fst, ?_, ?_, ?_, ?_, ?_⟩
      · exact hmapfst ▸ (sortS_perm groupLE groups).map Prod.fst
      · exact ((sortS_perm groupLE groups).map Prod.fst).nodup_iff.mpr
          (hmapfst ▸ firstOccs_nodup (g.map camKeyOf))
      · rw [hproc]
        show (sortS groupLE groups).flatMap Prod.snd = _
        exact flatMap_snd_eq F sortedG hshape
      · have hPW : sortedG.Pairwise (fun A B => groupLE A B = true) :=
          sortS_pairwise groupLE
            (fun A B => by
              unfold groupLE
              rcases le_total (earliest_ms A.2) (earliest_ms B.2) with h | h
              · left; simpa using h
              · right; simpa using h)
            (fun A B C h₁ h₂ => by
              unfold groupLE at h₁ h₂ ⊢
              simp only [decide_eq_true_iff] at h₁ h₂ ⊢
              omega)
            groups
        rw [List.map_map]
        have hcongr : sortedG.map ((fun c => earliest_ms (F c)) ∘ Prod.fst) =
            sortedG.map (fun p => earliest_ms p.2) :=
          List.map_congr_left (fun p hp => by
            simp only [Function.comp]
            rw [← hshape p hp])
        rw [hcongr]
        rw [List.pairwise_map]
        exact hPW.imp (fun hab => by simpa [groupLE] using hab)
      · intro c hc x hx
        have hx2 : x ∈ F c := hx
        have hFsub : (F c).Sublist g := List.filter_sublist g
        have hFPW : (F c).Pairwise (fun a b => entLE a b = true) := hgPW.filter _
        show earliest_ms (F c) ≤ full_ts_ms x
        cases hFc : F c with
        | nil => rw [hFc] at hx2; cases hx2
        | cons y ys =>
          rw [hFc] at hx2 hFPW
          have hsub2 : (y :: ys).Sublist g := hFc ▸ hFsub
          have hy : y ∈ g := hsub2.subset (List.mem_cons_self y ys)
          have hxg : x ∈ g := hsub2.subset hx2
          show full_ts_ms y ≤ full_ts_ms x
          rcases List.mem_cons.mp hx2 with rfl | hx3
          · exact le_refl _
          · have hyx : entLE y x = true := (List.pairwise_cons.mp hFPW).1 x hx3
            exact entLE_tms_le hyx (by rw [hts y hy]; rfl) (by rw [hts x hxg]; rfl)

def fxC1e : Entry := ⟨"IMG_001.jpg", { timestamp := some fxDt, subsecond := some 100 }, fxCanonR5⟩

def fxI1e : Entry := ⟨"IMG_3456.heic", { timestamp := some fxDt, subsecond := some 150 }, fxIphone15⟩

def fxC2e : Entry := ⟨"IMG_002.jpg", { timestamp := some fxDt, subsecond := some 200 }, fxCanonR5⟩

def fxI2e : Entry := ⟨"IMG_3457.heic", { timestamp := some fxDt, subsecond := some 250 }, fxIphone15⟩

/-- The spec's burst example: two same-second Canon frames with an iPhone
frame interleaved between them by subsecond. -/
def fxBurst : List Entry := [fxC1e, fxI1e, fxC2e, fxI2e]

/-- C4 witness: on the interleaved Canon/iPhone same-second run, the
multi-camera branch emits contiguous per-camera sub-groups in
earliest-timestamp order. -/
theorem C4_burst_regroup_witness :
    ∃ ks : List String,
      ks.Perm (firstOccs (fxBurst.map camKeyOf)) ∧ ks.Nodup ∧
      processRun fxBurst =
        ks.flatMap (fun c => fxBurst.filter (fun x => decide (camKeyOf x = c))) ∧
      (ks.map (fun c =>
        earliest_ms (fxBurst.filter (fun x => decide (camKeyOf x = c))))).Pairwise
        (· ≤ ·) ∧
      (∀ c ∈ ks, ∀ x ∈ fxBurst.filter (fun x => decide (camKeyOf x = c)),
        earliest_ms (fxBurst.filter (fun x => decide (camKeyOf x = c))) ≤
          full_ts_ms x) :=
  (C4_burst_regroup fxBurst fxBurst (by decide)).2.2 (by decide)

/-!
## C8
-/

theorem except_bind_ok {ε α β : Type} (x : Except ε α) (f : α → Except ε β) (b : β) :
    ((x >>= f) = .ok b) ↔ ∃ a, x = .ok a ∧ f a = .ok b := by
  cases x with
  | error e =>
    constructor
    · intro h; exact absurd h (by simp [Bind.bind, Except.bind])
    · rintro ⟨a, ha, _⟩; cases ha
  | ok a =>
    constructor
    · intro h; exact ⟨a, rfl, h⟩
    · rintro ⟨a2, ha, hf⟩
      cases ha
      exact hf

theorem except_ok_bind {ε α β : Type} (a : α) (f : α → Except ε β) :
    ((Except.ok a : Except ε α) >>= f) = f a := rfl

theorem getKey_ok_lookup {f : List (String × Json)} {k : String} {v : Json}
    (h : getKey f k = .ok v) : lookupJson f k = some v := by
  unfold getKey at h
  cases hl : lookupJson f k with
  | none => rw [hl] at h; cases h
  | some w =>
    rw [hl] at h
    have : w = v := by simpa using h
    rw [this]

/-- All five optional pic keys of `PIC_SCHEMA` are present (dict
subscripting in the pic loop never raises `KeyError` exactly then). -/
def picOptionalKeysPresent (x : Json) : Bool :=
  match x with
  | .obj xf =>
    (lookupJson xf "timestamp").isSome && (lookupJson xf "timestamp_source").isSome &&
      (lookupJson xf "camera").isSome && (lookupJson xf "gps").isSome &&
      (lookupJson xf "errors").isSome
  | _ => false

theorem parsePic_ok_keys (p : String → Option DateTime) (x : Json) (pic : Pic)
    (h : parsePic p x = .ok pic) : picOptionalKeysPresent x = true := by
  cases x with
  | obj xf =>
    unfold parsePic at h
    rw [except_bind_ok] at h; rcases h with ⟨tsVal, hts, h⟩
    rw [except_bind_ok] at h; rcases h with ⟨ts2, _, h⟩
    rw [except_bind_ok] at h; rcases h with ⟨spV, _, h⟩
    rw [except_bind_ok] at h; rcases h with ⟨sp, _, h⟩
    rw [except_bind_ok] at h; rcases h with ⟨dpV, _, h⟩
    rw [except_bind_ok] at h; rcases h with ⟨dp, _, h⟩
    rw [except_bind_ok] at h; rcases h with ⟨hV, _, h⟩
    rw [except_bind_ok] at h; rcases h with ⟨hsh, _, h⟩
    rw [except_bind_ok] at h; rcases h with ⟨sbV, _, h⟩
    rw [except_bind_ok] at h; rcases h with ⟨sb, _, h⟩
    rw [except_bind_ok] at h; rcases h with ⟨mtV, _, h⟩
    rw [except_bind_ok] at h; rcases h with ⟨mt, _, h⟩
    rw [except_bind_ok] at h; rcases h with ⟨tssV, htss, h⟩
    rw [except_bind_ok] at h; rcases h with ⟨tss, _, h⟩
    rw [except_bind_ok] at h; rcases h with ⟨camV, hcam, h⟩
    rw [except_bind_ok] at h; rcases h with ⟨cam, _, h⟩
    rw [except_bind_ok] at h; rcases h with ⟨gps, hgps, h⟩
    rw [except_bind_ok] at h; rcases h with ⟨errsV, herrs, _⟩
    simp [picOptionalKeysPresent, getKey_ok_lookup hts, getKey_ok_lookup htss,
      getKey_ok_lookup hcam, getKey_ok_lookup hgps, getKey_ok_lookup herrs]
  | null => exact absurd h (by simp [parsePic])
  | bool b => exact absurd h (by simp [parsePic])
  | num q => exact absurd h (by simp [parsePic])
  | str s => exact absurd h (by simp [parsePic])
  | arr xs => exact absurd h (by simp [parsePic])

theorem parsePics_ok_keys (p : String → Option DateTime) :
    ∀ (picsL : List Json) (pics : List Pic), parsePics p picsL = .ok pics →
      ∀ x ∈ picsL, picOptionalKeysPresent x = true := by
  intro picsL
  induction picsL with
  | nil => intro pics _ x hx; cases hx
  | cons y ys ih =>
    intro pics h x hx
    unfold parsePics at h
    rw [except_bind_ok] at h; rcases h with ⟨pic, hpic, h⟩
    rw [except_bind_ok] at h; rcases h with ⟨ps, hps, _⟩
    rcases List.mem_cons.mp hx with rfl | hx2
    · exact parsePic_ok_keys p x pic hpic
    · exact ih ps hps x hx2

theorem deserialize_ok_parsePics {p : String → Option DateTime}
    {fs : List (String × Json)} {picsL : List Json} {m : Manifest}
    (hl : lookupJson fs "pics" = some (.arr picsL))
    (h : deserialize p (.obj fs) = .ok m) : ∃ ps, parsePics p picsL = .ok ps := by
  unfold deserialize at h
  by_cases hv : validateManifest (.obj fs) = true
  · rw [if_pos hv] at h
    dsimp only at h
    rw [show getKey fs "pics" = Except.ok (.arr picsL) by unfold getKey; rw [hl]] at h
    rw [except_ok_bind] at h
    rw [except_bind_ok] at h
    rcases h with ⟨ps, hps, _⟩
    exact ⟨ps, hps⟩
  · rw [if_neg hv] at h
    cases h

/-- C8 amended: dict subscripting makes each pic's optional fields
mandatory *keys* — whenever `deserialize` succeeds, every pic object in
the input carried all five optional keys, so a schema-valid pic lacking
one raises `KeyError` (see the counterexample) — while the *top-level*
optional fields are read with `.get`: under the hypotheses that the pics
parse and `generated_at` parses, `deserialize` succeeds and reconstructs
each top-level optional field as the raw lookup, which is `none` exactly
when the field is absent. -/
theorem C8_deserialize_optional_fields :
    (∀ (p : String → Option DateTime) (fs : List (String × Json)) (picsL : List Json)
      (m : Manifest),
      lookupJson fs "pics" = some (.arr picsL) →
      deserialize p (.obj fs) = .ok m →
      ∀ x ∈ picsL, picOptionalKeysPresent x = true)
    ∧ (∀ (p : String → Option DateTime) (fs : List (String × Json)) (picsL : List Json)
      (ps : List Pic) (gaS : String) (d : DateTime),
      validateManifest (.obj fs) = true →
      lookupJson fs "pics" = some (.arr picsL) →
      parsePics p picsL = .ok ps →
      lookupJson fs "generated_at" = some (.str gaS) →
      p gaS = some d →
      ∃ m, deserialize p (.obj fs) = .ok m ∧ m.pics = ps ∧
        m.collection_description = lookupJson fs "collection_description" ∧
        m.config = lookupJson fs "config" ∧
        m.errors = lookupJson fs "errors" ∧
        m.warnings = lookupJson fs "warnings" ∧
        m.processing_status = lookupJson fs "processing_status") := by
  constructor
  · intro p fs picsL m hl h x hx
    rcases deserialize_ok_parsePics hl h with ⟨ps, hps⟩
    exact parsePics_ok_keys p picsL ps hps x hx
  · intro p fs picsL ps gaS d hv hpics hps hga hpd
    have hv2 := hv
    simp only [validateManifest, Bool.and_eq_true] at hv2
    obtain ⟨⟨⟨⟨⟨⟨⟨⟨h1, h2⟩, -⟩, -⟩, -⟩, -⟩, -⟩, -⟩, -⟩ := hv2
    rcases hverS : lookupJson fs "version" with _ | v
    · rw [hverS] at h1; simp at h1
    · rw [hverS] at h1
      cases v with
      | str s =>
        have hs : s = "0.1.0" := by simpa using h1
        subst hs
        rcases hcnS : lookupJson fs "collection_name" with _ | w
        · rw [hcnS] at h2; simp at h2
        · rw [hcnS] at h2
          cases w with
          | str cn =>
            unfold deserialize
            rw [if_pos hv]
            dsimp only
            rw [show getKey fs "pics" = Except.ok (.arr picsL) by unfold getKey; rw [hpics]]
            rw [except_ok_bind]
            dsimp only
            rw [hps, except_ok_bind]
            rw [show getKey fs "generated_at" = Except.ok (.str gaS) by
              unfold getKey; rw [hga]]
            rw [except_ok_bind]
            rw [show asStr (.str gaS) = Except.ok gaS from rfl, except_ok_bind]
            rw [hpd]
            dsimp only
            rw [show (pure d : Except DErr DateTime) = Except.ok d from rfl, except_ok_bind]
            rw [show getKey fs "version" = Except.ok (.str "0.1.0") by
              unfold getKey; rw [hverS]]
            rw [except_ok_bind]
            rw [show asStr (.str "0.1.0") = Except.ok "0.1.0" from rfl, except_ok_bind]
            rw [show getKey fs "collection_name" = Except.ok (.str cn) by
              unfold getKey; rw [hcnS]]
            rw [except_ok_bind]
            rw [show asStr (.str cn) = Except.ok cn from rfl, except_ok_bind]
            exact ⟨_, rfl, rfl, rfl, rfl, rfl, rfl, rfl⟩
          | null => simp at h2
          | bool b => simp at h2
          | num q => simp at h2
          | arr xs => simp at h2
          | obj o => simp at h2
      | null => simp at h1
      | bool b => simp at h1
      | num q => simp at h1
      | arr xs => simp at h1
      | obj o => simp at h1

/-- A pic carrying exactly the five required `PIC_SCHEMA` fields — valid
against the schema, which marks the remaining fields optional. -/
def fxPicMin : Json := .obj
  [("source_path", .str "a"), ("dest_path", .str "b"), ("hash", .str "h"),
   ("size_bytes", .num (mkRat 1 1)), ("mtime", .num (mkRat 0 1))]

def fxManMin : Json := .obj
  [("version", .str "0.1.0"), ("collection_name", .str "c"),
   ("generated_at", .str "2024-01-01T00:00:00"), ("pics", .arr [fxPicMin])]

/-- C8 counterexample: a JSON text that satisfies the manifest schema but
whose pic omits the optional `timestamp` field makes `deserialize` raise
`KeyError("timestamp")` at `pic_data["timestamp"]` instead of defaulting
the field to null. -/
theorem C8_deserialize_keyerror_counterexample :
    validateManifest fxManMin = true ∧
      deserialize (fun _ => none) fxManMin = .error (.keyError "timestamp") :=
  ⟨by decide, rfl⟩

def fxPicFull : Json := .obj
  [("source_path", .str "a"), ("dest_path", .str "b"), ("hash", .str "h"),
   ("size_bytes", .num (mkRat 1 1)), ("mtime", .num (mkRat 0 1)),
   ("timestamp", .null), ("timestamp_source", .null), ("camera", .null),
   ("gps", .null), ("errors", .arr [])]

def fxManFields : List (String × Json) :=
  [("version", .str "0.1.0"), ("collection_name", .str "c"),
   ("generated_at", .str "2024-01-01T00:00:00"), ("pics", .arr [fxPicFull])]

def fxParseIso : String → Option DateTime :=
  fun s => if s = "2024-01-01T00:00:00" then some fxDt0 else none

def fxParsedPic : Pic :=
  { source_path := "a", dest_path := "b", hash := "h",
    size_bytes := (mkRat 1 1).num, mtime := mkRat 0 1, timestamp := none,
    timestamp_source := none, camera := none, gps := Json.null, errors := [] }

/-- C8 witness: with every pic optional key present (as null) and no
top-level optional fields, deserialization succeeds and reconstructs each
top-level optional field as `none`. -/
theorem C8_deserialize_optional_fields_witness :
    ∃ m, deserialize fxParseIso (.obj fxManFields) = .ok m ∧
      m.pics = [fxParsedPic] ∧
      m.collection_description = lookupJson fxManFields "collection_description" ∧
      m.config = lookupJson fxManFields "config" ∧
      m.errors = lookupJson fxManFields "errors" ∧
      m.warnings = lookupJson fxManFields "warnings" ∧
      m.processing_status = lookupJson fxManFields "processing_status" :=
  C8_deserialize_optional_fields.2 fxParseIso fxManFields [fxPicFull] [fxParsedPic]
    "2024-01-01T00:00:00" fxDt0 (by decide) rfl rfl rfl rfl
